import Mathlib

set_option maxRecDepth 100000

/-!
# A shallow embedding of the `simdparse` text decoders

This file embeds the parsing kernels of the `simdparse` C++ library
(`include/simdparse/*.hpp` and `base64.hpp`) in Lean and proves properties
of the embedded code.

Conventions:
* A byte string is a `List ℕ` with every element below 256 (one element per
  `char` of the C++ `std::string_view`).
* SSE/AVX byte comparisons (`_mm_cmpgt_epi8` and friends) are signed; `sbyte`
  reads a byte the way the hardware compares it.
* The SIMD shuffle / multiply-add reduction trees are embedded by the
  per-byte arithmetic they compute; the register constants (bounds vectors,
  shuffle indices, weights) are transcribed from the source and the
  derivation of each arithmetic form is documented at the definition.
* C++ functions that mutate fields of `*this` are modelled by explicit state
  passing: `parse` takes the prior object state and returns the `bool`
  result together with the state after the call.
* `std::from_chars` and `gmtime` are external library routines; they are
  modelled from their documented C++17 / POSIX contracts.
-/

namespace Simdparse

/-- A byte read as the signed 8-bit integer that SSE/AVX byte comparisons see. -/
def sbyte (c : ℕ) : ℤ :=
  if c < 128 then (c : ℤ) else (c : ℤ) - 256

/-- ASCII decimal digit class `'0'..'9'` (used by the `std::from_chars` model). -/
def isDigit (c : ℕ) : Bool :=
  48 ≤ c && c ≤ 57

/-- Longest leading run of ASCII decimal digits, and the remaining suffix.
Modelled from the `std::from_chars` contract: the pattern consumed for an
unsigned integer is a maximal nonempty digit sequence. -/
def digitSpan : List ℕ → List ℕ × List ℕ
  | [] => ([], [])
  | c :: cs =>
    if isDigit c then
      let p := digitSpan cs
      (c :: p.1, p.2)
    else ([], c :: cs)

/-- Numeric value of a decimal ASCII digit string (`'0'` is byte 48). -/
def decVal (s : List ℕ) : ℕ :=
  s.foldl (fun a c => 10 * a + (c - 48)) 0

/-- Modelled from `std::from_chars` (C++17) for an unsigned integer type with
representable range `[0, lim)`, combined with the call-site success test
`result.ec == std::errc{} && result.ptr == last` used throughout the library
(`detail::parse_range`, `parse_chars`).  Given the value `v0` the destination
held before the call, returns the success flag and the destination value after
the call: `from_chars` stores the parsed number exactly when a nonempty digit
run was consumed and its value is representable; on `invalid_argument` or
`result_out_of_range` the destination keeps `v0`. -/
def fromCharsU (lim : ℕ) (s : List ℕ) (v0 : ℕ) : Bool × ℕ :=
  let p := digitSpan s
  if p.1 = [] then (false, v0)
  else if lim ≤ decVal p.1 then (false, v0)
  else (decide (p.2 = []), decVal p.1)

/-- Modelled from `std::from_chars` (C++17) for `int` (32-bit), with the same
call-site success test as `fromCharsU`: an optional leading `'-'` (byte 45)
followed by a maximal nonempty digit run; value must fit a 32-bit `int`. -/
def fromCharsI (s : List ℕ) (v0 : ℤ) : Bool × ℤ :=
  match s with
  | 45 :: rest =>
    let p := digitSpan rest
    if p.1 = [] then (false, v0)
    else if 2 ^ 31 < decVal p.1 then (false, v0)
    else (decide (p.2 = []), -(decVal p.1 : ℤ))
  | _ =>
    let p := digitSpan s
    if p.1 = [] then (false, v0)
    else if 2 ^ 31 ≤ decVal p.1 then (false, v0)
    else (decide (p.2 = []), (decVal p.1 : ℤ))

/-- The byte range `[beg, en)` of a string, as passed by `detail::parse_range`
to `std::from_chars`. -/
def subrange (s : List ℕ) (b e : ℕ) : List ℕ :=
  (s.drop b).take (e - b)

/-- Per-position signed range check: the embedding of the
`cmpgt(lower, x) | cmpgt(x, upper)` + `movemask` idiom.  Each pair is the
(lower, upper) signed bound of one byte position; positions past the end of
the bounds list are "don't care" (their bounds are `(-128, 127)` in the
source, which every byte satisfies). -/
def inBounds : List (ℤ × ℤ) → List ℕ → Bool
  | b :: bs, c :: cs =>
    (decide (b.1 ≤ sbyte c) && decide (sbyte c ≤ b.2)) && inBounds bs cs
  | _, _ => true

/-- Digit value extraction `characters & 0x0F` used by the date/date-time
kernels (`ascii_digit_mask`). -/
def dval (c : ℕ) : ℕ :=
  c &&& 15

/-- `simdparse::date`: year is a C `int`, month and day are `unsigned int`. -/
structure date where
  year : ℤ := 0
  month : ℕ := 0
  day : ℕ := 0
deriving DecidableEq, Repr

/-- The per-position bounds of `date::parse_date` (AVX2 build) for the 10
input bytes `YYYY-MM-DD`; the remaining 6 bytes of the 16-byte register are
uninitialized and carry don't-care bounds `(-128, 127)`, and neither the
digit mask (0 there) nor the pack shuffle reads them. -/
def dateBounds : List (ℤ × ℤ) :=
  [(48, 57), (48, 57), (48, 57), (48, 57),
   (45, 45),
   (48, 49), (48, 57),
   (45, 45),
   (48, 51), (48, 57)]

/-- `date::parse_date`, AVX2 build: range-check all positions, mask with
`0x0F`, gather digits `0 1 2 3 | 5 6 | 8 9` and combine with weights
`1000/100/10/1` (year) and `10/1` (month, day).  Fields are written only
after the check passes. -/
def dateParseSimd (s : List ℕ) (st : date) : Bool × date :=
  if inBounds dateBounds s then
    (true,
      { year := (1000 * dval (s.getD 0 0) + 100 * dval (s.getD 1 0)
                  + 10 * dval (s.getD 2 0) + dval (s.getD 3 0) : ℕ),
        month := 10 * dval (s.getD 5 0) + dval (s.getD 6 0),
        day := 10 * dval (s.getD 8 0) + dval (s.getD 9 0) })
  else (false, st)

/-- `date::parse_date`, scalar build: `parse_range` on `[0,4)`, `[5,7)`,
`[8,10)` with semantic bounds `month ≤ 12`, `day ≤ 31`; separator positions
4 and 7 are not inspected.  `&&` short-circuit and the field writes of
`from_chars` are modelled exactly. -/
def dateParseChars (s : List ℕ) (st : date) : Bool × date :=
  let r1 := fromCharsI (subrange s 0 4) st.year
  let st1 : date := { st with year := r1.2 }
  if !r1.1 then (false, st1)
  else
    let r2 := fromCharsU (2 ^ 32) (subrange s 5 7) st.month
    let st2 : date := { st1 with month := r2.2 }
    if !(r2.1 && decide (r2.2 ≤ 12)) then (false, st2)
    else
      let r3 := fromCharsU (2 ^ 32) (subrange s 8 10) st.day
      let st3 : date := { st2 with day := r3.2 }
      (r3.1 && decide (r3.2 ≤ 31), st3)

/-- `date::parse`, AVX2 build: length gate then the SIMD body. -/
def dateParseAvx (s : List ℕ) (st : date) : Bool × date :=
  if s.length ≠ 10 then (false, st) else dateParseSimd s st

/-- `date::parse`, scalar build: length gate then the `from_chars` body. -/
def dateParseSca (s : List ℕ) (st : date) : Bool × date :=
  if s.length ≠ 10 then (false, st) else dateParseChars s st

/-- `tzoffset::parse`.  The offset value `_value` (minutes east) is the only
state; note that the source assigns `_value = sign * (60 * hour + minute)`
before validating the sign and the minute bound, so a failing parse can
commit a partial result. -/
def tzParse (s : List ℕ) (v0 : ℤ) : Bool × ℤ :=
  if s.length ≠ 6 then (false, v0)
  else
    let rh := fromCharsU (2 ^ 32) (subrange s 1 3) 0
    if !rh.1 then (false, v0)
    else if s.getD 3 0 ≠ 58 then (false, v0)
    else
      let rm := fromCharsU (2 ^ 32) (subrange s 4 6) 0
      if !rm.1 then (false, v0)
      else
        let sign : ℤ := (if s.getD 0 0 = 43 then 1 else 0)
                        - (if s.getD 0 0 = 45 then 1 else 0)
        (decide (sign ≠ 0) && decide (rm.2 < 60), sign * (60 * rh.2 + rm.2))

/-- Byte list of a Lean string literal (each character as its code point;
all our inputs are ASCII). -/
def strBytes (s : String) : List ℕ :=
  s.data.map Char.toNat

/-- `simdparse::datetime`: year is a C `int`; month, day, hour, minute,
second are `unsigned int`; nanosecond is `unsigned long`; offset is the
embedded `tzoffset` value in minutes. -/
structure datetime where
  year : ℤ := 0
  month : ℕ := 0
  day : ℕ := 0
  hour : ℕ := 0
  minute : ℕ := 0
  second : ℕ := 0
  nanosecond : ℕ := 0
  offset : ℤ := 0
deriving DecidableEq, Repr

/-- Per-position bounds of `datetime::parse_date_time` (AVX2 build) for the
16-byte register holding `YYYY-MM-DD hh:mm` (positions 0..15 of a 19-byte
input; the date/time separator accepts ASCII 32 `' '` .. 84 `'T'`). -/
def dtBounds16 : List (ℤ × ℤ) :=
  [(48, 57), (48, 57), (48, 57), (48, 57),
   (45, 45),
   (48, 49), (48, 57),
   (45, 45),
   (48, 51), (48, 57),
   (32, 84),
   (48, 50), (48, 57),
   (58, 58),
   (48, 53), (48, 57)]

/-- `datetime::parse_date_time`, AVX2 build (19-byte input, no fractional
part): range-check positions 0..15, mask with `0x0F`, gather digit pairs and
reduce with `maddubs` weights `10,1`; year combines its two 16-bit halves as
`hundreds * 100 + remainder`.  The five leading fields are stored before
`second` is parsed with `parse_range(str, 17, 19)` and checked `< 60`, so a
failure of the final check leaves them committed. -/
def dtParseSimd19 (s : List ℕ) (st : datetime) : Bool × datetime :=
  if inBounds dtBounds16 s then
    let st1 : datetime :=
      { st with
        year := (100 * (10 * dval (s.getD 0 0) + dval (s.getD 1 0))
                  + (10 * dval (s.getD 2 0) + dval (s.getD 3 0)) : ℕ),
        month := 10 * dval (s.getD 5 0) + dval (s.getD 6 0),
        day := 10 * dval (s.getD 8 0) + dval (s.getD 9 0),
        hour := 10 * dval (s.getD 11 0) + dval (s.getD 12 0),
        minute := 10 * dval (s.getD 14 0) + dval (s.getD 15 0) }
    let r := fromCharsU (2 ^ 32) (subrange s 17 19) st1.second
    let st2 : datetime := { st1 with second := r.2 }
    (r.1 && decide (r.2 < 60), st2)
  else (false, st)

/-- Per-position bounds of `datetime::parse_date_time_fractional` (AVX2
build) for the 32-byte register holding `YYYY-MM-DD hh:mm:ss.fffffffff---`
(the input, at most 29 bytes, is right-padded with `'0'` to 32 bytes). -/
def dtBounds32 : List (ℤ × ℤ) :=
  [(48, 57), (48, 57), (48, 57), (48, 57),
   (45, 45),
   (48, 49), (48, 57),
   (45, 45),
   (48, 51), (48, 57),
   (32, 84),
   (48, 50), (48, 57),
   (58, 58),
   (48, 53), (48, 57),
   (58, 58),
   (48, 53), (48, 57),
   (46, 46),
   (48, 57), (48, 57), (48, 57), (48, 57), (48, 57), (48, 57),
   (48, 57), (48, 57), (48, 57), (48, 57), (48, 57), (48, 57)]

/-- `datetime::parse_date_time_fractional`, AVX2 build (20..29-byte input):
pad with `'0'` to 32 bytes, range-check all 32 positions, mask with `0x0F`,
then reduce: the six leading fields as in `dtParseSimd19`, `second` from
positions 17,18 with weights `10,1`, and the padded 9-digit fraction as
three triplets (positions 20-22, 23-25, 26-28) each reduced with weights
`0,100,10,1`, composed as `1'000'000*milli + 1'000*micro + nano`.  All
fields are written after the single range check; the function then returns
`true`. -/
def dtParseSimdFrac (s : List ℕ) (st : datetime) : Bool × datetime :=
  let buf := s ++ List.replicate (32 - s.length) 48
  if inBounds dtBounds32 buf then
    let milli := 100 * dval (buf.getD 20 0) + 10 * dval (buf.getD 21 0) + dval (buf.getD 22 0)
    let micro := 100 * dval (buf.getD 23 0) + 10 * dval (buf.getD 24 0) + dval (buf.getD 25 0)
    let nano := 100 * dval (buf.getD 26 0) + 10 * dval (buf.getD 27 0) + dval (buf.getD 28 0)
    (true,
      { st with
        year := (100 * (10 * dval (buf.getD 0 0) + dval (buf.getD 1 0))
                  + (10 * dval (buf.getD 2 0) + dval (buf.getD 3 0)) : ℕ),
        month := 10 * dval (buf.getD 5 0) + dval (buf.getD 6 0),
        day := 10 * dval (buf.getD 8 0) + dval (buf.getD 9 0),
        hour := 10 * dval (buf.getD 11 0) + dval (buf.getD 12 0),
        minute := 10 * dval (buf.getD 14 0) + dval (buf.getD 15 0),
        second := 10 * dval (buf.getD 17 0) + dval (buf.getD 18 0),
        nanosecond := 1000000 * milli + 1000 * micro + nano })
  else (false, st)

/-- `datetime::parse_date_time`, scalar build (19-byte input): chained
`parse_range` calls with explicit separator tests and the semantic bounds
`month ≤ 12`, `day ≤ 31`, `hour < 24`, `minute < 60`, `second < 60`;
`&&` short-circuiting and the destination writes of `from_chars` are
modelled exactly (each `parse_range` writes the member it targets). -/
def dtParseChars19 (s : List ℕ) (st : datetime) : Bool × datetime :=
  let r1 := fromCharsI (subrange s 0 4) st.year
  let st1 : datetime := { st with year := r1.2 }
  if !r1.1 then (false, st1)
  else if s.getD 4 0 ≠ 45 then (false, st1)
  else
    let r2 := fromCharsU (2 ^ 32) (subrange s 5 7) st.month
    let st2 : datetime := { st1 with month := r2.2 }
    if !(r2.1 && decide (r2.2 ≤ 12)) then (false, st2)
    else if s.getD 7 0 ≠ 45 then (false, st2)
    else
      let r3 := fromCharsU (2 ^ 32) (subrange s 8 10) st.day
      let st3 : datetime := { st2 with day := r3.2 }
      if !(r3.1 && decide (r3.2 ≤ 31)) then (false, st3)
      else if !(s.getD 10 0 = 84 || s.getD 10 0 = 32) then (false, st3)
      else
        let r4 := fromCharsU (2 ^ 32) (subrange s 11 13) st.hour
        let st4 : datetime := { st3 with hour := r4.2 }
        if !(r4.1 && decide (r4.2 < 24)) then (false, st4)
        else if s.getD 13 0 ≠ 58 then (false, st4)
        else
          let r5 := fromCharsU (2 ^ 32) (subrange s 14 16) st.minute
          let st5 : datetime := { st4 with minute := r5.2 }
          if !(r5.1 && decide (r5.2 < 60)) then (false, st5)
          else if s.getD 16 0 ≠ 58 then (false, st5)
          else
            let r6 := fromCharsU (2 ^ 32) (subrange s 17 19) st.second
            let st6 : datetime := { st5 with second := r6.2 }
            (r6.1 && decide (r6.2 < 60), st6)

/-- `datetime::parse_fractional` (shared by both builds): `parse_range` over
the whole fractional substring (at most 9 bytes), then
`nanosecond = powers[9 - size] * fractional`; on a failed `parse_range` the
function returns before touching `nanosecond`. -/
def dtParseFractionalPart (s : List ℕ) (st : datetime) : Bool × datetime :=
  let r := fromCharsU (2 ^ 64) s 0
  if !r.1 then (false, st)
  else (true, { st with nanosecond := 10 ^ (9 - s.length) * r.2 })

/-- `datetime::parse_date_time_fractional`, scalar build: the 19-byte prefix
through `dtParseChars19`, a literal `'.'` at position 19, then the fraction
from position 20 on. -/
def dtParseCharsFrac (s : List ℕ) (st : datetime) : Bool × datetime :=
  let r := dtParseChars19 (s.take 19) st
  if !r.1 then (false, r.2)
  else if s.getD 19 0 ≠ 46 then (false, r.2)
  else dtParseFractionalPart (s.drop 20) r.2

/-- `datetime::parse_naive_date_time`, AVX2 build: dispatch on length
(19 exact / 20..29 fractional). -/
def dtNaiveAvx (s : List ℕ) (st : datetime) : Bool × datetime :=
  if s.length > 29 || s.length < 19 then (false, st)
  else if s.length > 19 then dtParseSimdFrac s st
  else dtParseSimd19 s st

/-- `datetime::parse_naive_date_time`, scalar build. -/
def dtNaiveSca (s : List ℕ) (st : datetime) : Bool × datetime :=
  if s.length > 29 || s.length < 19 then (false, st)
  else if s.length > 19 then dtParseCharsFrac s st
  else dtParseChars19 s st

/-- `datetime::parse` (both builds share this wrapper verbatim; `naive` is
the build-selected `parse_naive_date_time`): length gate 19..35, then suffix
dispatch on a trailing `'Z'`, a `'+'`/`'-'` six bytes from the end, the
4-byte literal `" UTC"`, or nothing.  On the `Z`/`UTC`/naive branches a
successful naive parse is followed by `offset = tzoffset()`; on the
sign branch `offset.parse` runs on the last 6 bytes and its result — partial
or not — is committed to the member. -/
def dtWrapper (naive : List ℕ → datetime → Bool × datetime)
    (s : List ℕ) (st : datetime) : Bool × datetime :=
  if s.length < 19 || s.length > 35 then (false, st)
  else if s.getLast? = some 90 then
    let r := naive (s.take (s.length - 1)) st
    if !r.1 then (false, r.2)
    else (true, { r.2 with offset := 0 })
  else if s.getD (s.length - 6) 0 = 43 || s.getD (s.length - 6) 0 = 45 then
    let r := naive (s.take (s.length - 6)) st
    if !r.1 then (false, r.2)
    else
      let rz := tzParse (s.drop (s.length - 6)) r.2.offset
      let st2 : datetime := { r.2 with offset := rz.2 }
      if !rz.1 then (false, st2)
      else (true, st2)
  else if (s.drop (s.length - 4)) = [32, 85, 84, 67] then
    let r := naive (s.take (s.length - 4)) st
    if !r.1 then (false, r.2)
    else (true, { r.2 with offset := 0 })
  else
    let r := naive s st
    if !r.1 then (false, r.2)
    else (true, { r.2 with offset := 0 })

/-- `datetime::parse`, AVX2 build. -/
def dtParseAvx (s : List ℕ) (st : datetime) : Bool × datetime :=
  dtWrapper dtNaiveAvx s st

/-- `datetime::parse`, scalar build. -/
def dtParseSca (s : List ℕ) (st : datetime) : Bool × datetime :=
  dtWrapper dtNaiveSca s st

/-- `decimal_integer::parse_simd` (AVX2 build): right-align the input (at
most 16 bytes at every call site) in a `'0'`-filled 16-byte register,
range-check every byte against `'0'..'9'` (signed compares), subtract `'0'`,
and reduce with the `maddubs`/`madd` weight tree `10,1` → `100,1` → signed
pack → `10000,1`, which yields the value of the first 8 digits in
`result[0]` and of the last 8 in `result[1]`; the stored value is
`100'000'000 * result[0] + result[1]` (no wrap: it is below `10^16`).
On a failed range check the destination keeps `v0`. -/
def decParseSimd (s : List ℕ) (v0 : ℕ) : Bool × ℕ :=
  let buf := List.replicate (16 - s.length) 48 ++ s
  if buf.all (fun c => decide (48 ≤ sbyte c) && decide (sbyte c ≤ 57)) then
    (true, 100000000 * decVal (buf.take 8) + decVal (buf.drop 8))
  else (false, v0)

/-- `decimal_integer::parse_integer<16>` = `decimal_integer::parse` (AVX2
build): inputs of more than 16 bytes parse the first 16 via the SIMD body,
scale by `10^(n-16)` with unchecked `unsigned long long` multiplication
(modelled `% 2^64`), parse the tail with `std::from_chars` (which overwrites
`value`), and add the scaled head back (`value += val`, again mod `2^64`). -/
def decParse (s : List ℕ) (v0 : ℕ) : Bool × ℕ :=
  if s.length > 16 then
    let r := decParseSimd (s.take 16) v0
    if !r.1 then (false, r.2)
    else
      let val := (r.2 * 10 ^ (s.length - 16)) % 2 ^ 64
      let rc := fromCharsU (2 ^ 64) (s.drop 16) r.2
      if !rc.1 then (false, rc.2)
      else (true, (rc.2 + val) % 2 ^ 64)
  else decParseSimd s v0

/-- The `is_not_digit` class of the hexadecimal / UUID kernels: signed
compare of the raw byte against `'0'..'9'`. -/
def hexIsNotDigit (c : ℕ) : Bool :=
  decide (sbyte c < 48) || decide (57 < sbyte c)

/-- The `is_not_alpha` class: `OR 0x20` (lowercase), then signed compare
against `'a'..'f'`. -/
def hexIsNotAlpha (c : ℕ) : Bool :=
  decide (sbyte (c ||| 32) < 97) || decide (102 < sbyte (c ||| 32))

/-- A byte passes the hexadecimal kernels' validity test
(`is_not_hex = is_not_digit & is_not_alpha`, then `movemask`). -/
def hexValid (c : ℕ) : Bool :=
  !(hexIsNotDigit c && hexIsNotAlpha c)

/-- Nibble value of a validated hex byte: lowercase, then subtract the
class-selected offset (`blendv` of 48 for digits and 87 for letters);
`sub_epi8` wraps mod 256 (no wrap occurs on validated bytes). -/
def hexNib (c : ℕ) : ℕ :=
  ((c ||| 32) + 256 - (if hexIsNotDigit c then 87 else 48)) % 256

/-- Base-16 accumulation of nibble values, most significant first. -/
def hexVal (s : List ℕ) : ℕ :=
  s.foldl (fun a c => 16 * a + hexNib c) 0

/-- `hexadecimal_integer::parse_hexadecimal` (AVX2 build): right-align the
input (at most 16 bytes by `parse_string`) in a `'0'`-filled 16-byte
register, classify every byte, and on success assemble the 16 nibbles into
a 64-bit value.  The `unweave` byte shuffle, the `sllv` 4-bit shift of the
high-nibble slots and the `hadd` recombination compute exactly
`Σ nib[i] * 16^(15-i)` (most significant nibble first), i.e. `hexVal` of the
padded register.  On failure the destination keeps `v0`. -/
def hexParseHexa (s : List ℕ) (v0 : ℕ) : Bool × ℕ :=
  let buf := List.replicate (16 - s.length) 48 ++ s
  if buf.all hexValid then (true, hexVal buf)
  else (false, v0)

/-- `hexadecimal_integer::parse_string`: length gate (at most 16 digits). -/
def hexParseString (s : List ℕ) (v0 : ℕ) : Bool × ℕ :=
  if s.length > 16 then (false, v0) else hexParseHexa s v0

/-- `hexadecimal_integer::parse`: strip a leading `"0x"` (bytes 48, 120 —
only lowercase `x`) when the input is longer than 2 bytes. -/
def hexParse (s : List ℕ) (v0 : ℕ) : Bool × ℕ :=
  if s.length > 2 && s.getD 0 0 = 48 && s.getD 1 0 = 120 then
    hexParseString (s.drop 2) v0
  else hexParseString s v0

/-- Byte-pair packing of `detail::parse_uuid`: after classification the
nibbles are packed two per output byte (`unweave` shuffle + 4-bit shift of
the high-nibble slots + `hadd` + `permute4x64`), giving
`_id[k] = 16 * nib[2k] + nib[2k+1]` over the 32 gathered hex characters. -/
def packPairs : List ℕ → List ℕ
  | a :: b :: r => (16 * hexNib a + hexNib b) :: packPairs r
  | _ => []

/-- Pair packing over pre-computed nibble values (helper for reasoning
about `packPairs`). -/
def packNibs : List ℕ → List ℕ
  | a :: b :: r => (16 * a + b) :: packNibs r
  | _ => []

/-- The dash-removing gather of `uuid::parse_uuid_rfc_4122` (AVX2 build):
`dash_shuffle` plus the two fixed-offset inserts read exactly the byte
ranges `[0,8)`, `[9,13)`, `[14,18)`, `[19,23)`, `[24,36)` of the 36-byte
form — the dash positions 8, 13, 18, 23 are dropped without inspection. -/
def rfcGather (s : List ℕ) : List ℕ :=
  s.take 8 ++ (s.drop 9).take 4 ++ (s.drop 14).take 4
    ++ (s.drop 19).take 4 ++ (s.drop 24).take 12

/-- `detail::parse_uuid` on an assembled 32-character register, plus the
conditional store of the caller: `_id` is overwritten only on success. -/
def uuidParseCore (g : List ℕ) (id0 : List ℕ) : Bool × List ℕ :=
  if g.all hexValid then (true, packPairs g) else (false, id0)

/-- `uuid::parse`: dispatch on length 38 (skip the first byte; the braces
themselves are never checked), 36 (dashed) or 32 (compact). -/
def uuidParse (s : List ℕ) (id0 : List ℕ) : Bool × List ℕ :=
  if s.length = 38 then uuidParseCore (rfcGather (s.drop 1)) id0
  else if s.length = 36 then uuidParseCore (rfcGather s) id0
  else if s.length = 32 then uuidParseCore (s.take 32) id0
  else (false, id0)

/-- The dashed 8-4-4-4-12 textual form of a UUID, built from its 32 hex
characters (dashes are byte 45). -/
def insertDashes (h : List ℕ) : List ℕ :=
  h.take 8 ++ 45 :: ((h.drop 8).take 4 ++ 45 :: ((h.drop 12).take 4
    ++ 45 :: ((h.drop 16).take 4 ++ 45 :: h.drop 20)))

/-- The position of hex character `i` within the dashed form (dashes sit at
positions 8, 13, 18, 23). -/
def dashedPos (i : ℕ) : ℕ :=
  if i < 8 then i
  else if i < 12 then i + 1
  else if i < 16 then i + 2
  else if i < 20 then i + 3
  else i + 4

/-- `detail::maybe_letter`: `(c & 0b11000000) == 0b01000000`. -/
def maybeLetter (c : ℕ) : Bool :=
  c &&& 192 = 64

/-- `detail::month_to_integer`: pack the low 5 bits of the three characters
into a 15-bit value (case-insensitive by construction). -/
def monthToInteger (c1 c2 c3 : ℕ) : ℕ :=
  ((c1 &&& 31) <<< 10) ||| ((c2 &&& 31) <<< 5) ||| (c3 &&& 31)

/-- `detail::month_offsets`: perfect-hash slot to month index (15 marks an
unused slot). -/
def monthOffsets : List ℕ :=
  [7, 6, 4, 8, 9, 11, 2, 3, 0, 5, 10, 1, 15, 15, 15, 15]

/-- `detail::month_values`: packed value of each abbreviated month name
(entries 12..15 are 0). -/
def monthValues : List ℕ :=
  [monthToInteger 74 97 110,   -- Jan
   monthToInteger 70 101 98,   -- Feb
   monthToInteger 77 97 114,   -- Mar
   monthToInteger 65 112 114,  -- Apr
   monthToInteger 77 97 121,   -- May
   monthToInteger 74 117 110,  -- Jun
   monthToInteger 74 117 108,  -- Jul
   monthToInteger 65 117 103,  -- Aug
   monthToInteger 83 101 112,  -- Sep
   monthToInteger 79 99 116,   -- Oct
   monthToInteger 78 111 118,  -- Nov
   monthToInteger 68 101 99,   -- Dec
   0, 0, 0, 0]

/-- `simdparse::month_to_ordinal(char, char, char)`: perfect hash with
`k = 68`, `p = 929`, then a false-positive check against the letter classes
and the packed value. -/
def monthToOrdinal (c1 c2 c3 : ℕ) : ℕ :=
  let value := monthToInteger c1 c2 c3
  let index := (68 * value % 929) &&& 15
  let off := monthOffsets.getD index 0
  if maybeLetter c1 && maybeLetter c2 && maybeLetter c3
      && decide (value = monthValues.getD off 0) then
    off + 1
  else 0

/-- Spec-side rendering of the claim for `month_to_ordinal`: a character
matches a month-abbreviation letter exactly when it is the uppercase or the
lowercase form of it. -/
def letterCaseEq (c u : ℕ) : Bool :=
  c = u || c = u + 32

/-- The three-letter English month abbreviations, as uppercase byte
triples (`Jan` .. `Dec`). -/
def monthAbbrevs : List (ℕ × ℕ × ℕ) :=
  [(74, 65, 78), (70, 69, 66), (77, 65, 82), (65, 80, 82),
   (77, 65, 89), (74, 85, 78), (74, 85, 76), (65, 85, 71),
   (83, 69, 80), (79, 67, 84), (78, 79, 86), (68, 69, 67)]

/-- Spec-side: the three characters spell month abbreviation `t` up to
letter case. -/
def monthMatches (c1 c2 c3 : ℕ) (t : ℕ × ℕ × ℕ) : Bool :=
  letterCaseEq c1 t.1 && letterCaseEq c2 t.2.1 && letterCaseEq c3 t.2.2

/-- First match in a month list (1-based, counting from `k`), 0 if none. -/
def monthFind (c1 c2 c3 : ℕ) : List (ℕ × ℕ × ℕ) → ℕ → ℕ
  | [], _ => 0
  | t :: ts, k => if monthMatches c1 c2 c3 t then k + 1 else monthFind c1 c2 c3 ts (k + 1)

/-- Spec-side `month_to_ordinal`: the 1-based index of the month whose
abbreviation the three characters spell (up to case), 0 otherwise. -/
def monthSpec (c1 c2 c3 : ℕ) : ℕ :=
  monthFind c1 c2 c3 monthAbbrevs 0

/-- `microtime::UNSET = std::numeric_limits<int64_t>::min()`. -/
def microUNSET : ℤ := -(2 ^ 63)

/-- `microtime::microseconds`. -/
def microMicroseconds (v : ℤ) : ℕ :=
  if v = microUNSET then 0
  else (if v > 0 then v else -v).toNat % 1000000

/-- `microtime::as_time`: `-1` signals the undefined sentinel; otherwise
microseconds are truncated (C++ `/` rounds toward zero) to seconds. -/
def microAsTime (v : ℤ) : ℤ :=
  if v = microUNSET then -1 else Int.tdiv v 1000000

/-- The fields of `struct tm` produced by `gmtime` (those the library
reads): `tm_year` is years since 1900, `tm_mon` is 0-based. -/
structure tmRec where
  tm_year : ℤ
  tm_mon : ℕ
  tm_mday : ℕ
  tm_hour : ℕ
  tm_min : ℕ
  tm_sec : ℕ
deriving DecidableEq, Repr

/-- Proleptic-Gregorian civil date from a day number (days since
1970-01-01); the standard `civil_from_days` algorithm, used to model
`gmtime`. -/
def civilFromDays (z0 : ℤ) : ℤ × ℕ × ℕ :=
  let z := z0 + 719468
  let era := Int.fdiv z 146097
  let doe := (z - era * 146097).toNat
  let yoe := (doe - doe / 1460 + doe / 36524 - doe / 146096) / 365
  let y := (yoe : ℤ) + era * 400
  let doy := doe - (365 * yoe + yoe / 4 - yoe / 100)
  let mp := (5 * doy + 2) / 153
  let d := doy - (153 * mp + 2) / 5 + 1
  let m := if mp < 10 then mp + 3 else mp - 9
  (if m ≤ 2 then y + 1 else y, m, d)

/-- Modelled from the POSIX `gmtime` contract: split the epoch-second count
into a day number (flooring) and positive seconds-of-day, convert the day
number to a proleptic-Gregorian civil date, and fail (null) exactly when the
year does not fit `tm_year`'s `int`. -/
def gmtimeModel (t : ℤ) : Option tmRec :=
  let days := Int.fdiv t 86400
  let sod := (t - 86400 * days).toNat
  let c := civilFromDays days
  if c.1 - 1900 < -(2 ^ 31) ∨ 2 ^ 31 ≤ c.1 - 1900 then none
  else some ⟨c.1 - 1900, c.2.1 - 1, c.2.2, sod / 3600, sod % 3600 / 60, sod % 60⟩

/-- `microtime::as_date`: note there is no explicit `undefined()` test —
the sentinel goes through `as_time() = -1` and `gmtime`, which succeeds. -/
def microAsDate (v : ℤ) : date :=
  match gmtimeModel (microAsTime v) with
  | none => {}
  | some ts => { year := ts.tm_year + 1900, month := ts.tm_mon + 1, day := ts.tm_mday }

/-- `microtime::as_datetime`: the sentinel is tested explicitly and yields
the zero-valued `datetime`. -/
def microAsDatetime (v : ℤ) : datetime :=
  if v = microUNSET then {}
  else
    match gmtimeModel (microAsTime v) with
    | none => {}
    | some ts =>
      { year := ts.tm_year + 1900, month := ts.tm_mon + 1, day := ts.tm_mday,
        hour := ts.tm_hour, minute := ts.tm_min, second := ts.tm_sec,
        nanosecond := 1000 * microMicroseconds v }

/-- `base64url`'s `encoding_table` (RFC 4648 §5 alphabet, no padding). -/
def encTable : List ℕ :=
  strBytes "ABCDEFGHIJKLMNOPQRSTUVWXYZabcdefghijklmnopqrstuvwxyz0123456789-_"

/-- One output character of `base64url::encode`. -/
def enc (v : ℕ) : ℕ :=
  encTable.getD v 0

/-- `base64url::encode`: 3 bytes to 4 characters, a 2-byte tail to 3
characters, a 1-byte tail to 2 characters (the tail `switch` of the
source), no padding. -/
def encode : List ℕ → List ℕ
  | a :: b :: c :: r =>
    enc ((a >>> 2) &&& 63)
      :: enc (((a &&& 3) <<< 4) ||| ((b >>> 4) &&& 15))
      :: enc (((b &&& 15) <<< 2) ||| ((c >>> 6) &&& 3))
      :: enc (c &&& 63)
      :: encode r
  | [a, b] =>
    [enc ((a >>> 2) &&& 63),
     enc (((a &&& 3) <<< 4) ||| ((b >>> 4) &&& 15)),
     enc ((b &&& 15) <<< 2)]
  | [a] =>
    [enc ((a >>> 2) &&& 63),
     enc ((a &&& 3) <<< 4)]
  | [] => []

/-- `base64url`'s `decoding_table`: 64 marks an invalid byte.  (The C++
indexes it with `static_cast<int>(char)`, so bytes ≥ 128 would index
negatively — undefined behavior; all inputs reaching the theorems below are
7-bit, where the table is the authority.) -/
def decTable : List ℕ :=
  List.replicate 45 64 ++ [62] ++ List.replicate 2 64
    ++ [52, 53, 54, 55, 56, 57, 58, 59, 60, 61]
    ++ List.replicate 7 64
    ++ [0, 1, 2, 3, 4, 5, 6, 7, 8, 9, 10, 11, 12, 13, 14, 15, 16, 17, 18,
        19, 20, 21, 22, 23, 24, 25]
    ++ List.replicate 4 64 ++ [63] ++ [64]
    ++ [26, 27, 28, 29, 30, 31, 32, 33, 34, 35, 36, 37, 38, 39, 40, 41, 42,
        43, 44, 45, 46, 47, 48, 49, 50, 51]
    ++ List.replicate 133 64

/-- Table lookup of `base64url::decode`. -/
def dec (c : ℕ) : ℕ :=
  decTable.getD c 64

/-- The three output bytes of one scalar 4-character group of
`base64url::decode`. -/
def quadBytes (a b c d : ℕ) : List ℕ :=
  let t := (a <<< 18) ||| (b <<< 12) ||| (c <<< 6) ||| d
  [(t >>> 16) &&& 255, (t >>> 8) &&& 255, t &&& 255]

/-- The scalar loop and tail handling of `base64url::decode`: full
4-character groups produce 3 bytes; a 3-character tail produces 2 bytes, a
2-character tail 1 byte; a single leftover character never reaches this
point (the caller rejects `size % 4 == 1` up front).  Any character mapping
to 64 aborts. -/
def decodeQuads : List ℕ → Option (List ℕ)
  | c1 :: c2 :: c3 :: c4 :: r =>
    let a := dec c1
    let b := dec c2
    let c := dec c3
    let d := dec c4
    if (a ||| b ||| c ||| d) &&& 64 ≠ 0 then none
    else (decodeQuads r).map (fun t => quadBytes a b c d ++ t)
  | [c1, c2, c3] =>
    let a := dec c1
    let b := dec c2
    let c := dec c3
    if (a ||| b ||| c) &&& 64 ≠ 0 then none
    else
      let t := (a <<< 12) ||| (b <<< 6) ||| c
      some [(t >>> 10) &&& 255, (t >>> 2) &&& 255]
  | [c1, c2] =>
    let a := dec c1
    let b := dec c2
    if (a ||| b) &&& 64 ≠ 0 then none
    else
      let t := (a <<< 6) ||| b
      some [(t >>> 4) &&& 255]
  | [_] => none
  | [] => some []

/-- `valid_mask` of `base64url::decode32` (one 16-byte lane). -/
def b64ValidMaskTable : List ℕ :=
  [0b00010101, 0b00011111, 0b00011111, 0b00011111,
   0b00011111, 0b00011111, 0b00011111, 0b00011111,
   0b00011111, 0b00011111, 0b00001111, 0b00001010,
   0b00001010, 0b00101010, 0b00001010, 0b00001110]

/-- The per-character validity test of the AVX2 block kernel
`base64url::decode32`: `shuffle_epi8` returns 0 for bytes with the top bit
set (so they always fail); for 7-bit bytes the one-hot group bit
`0x80 >> (c >> 4)` must be a subset of the membership mask selected by the
low nibble (`_mm256_testc_si256`). -/
def b64Valid (c : ℕ) : Bool :=
  c < 128
    && decide ((b64ValidMaskTable.getD (c &&& 15) 0 >>> (7 - ((c >>> 4) &&& 15))) &&& 1 = 1)

/-- `offset_lookup` of `base64url::decode32`, entries as unsigned bytes:
`62-'-' = 17`, `52-'0' = 4`, `0-'A' ≡ 191`, `26-'a' ≡ 185` (mod 256). -/
def b64OffsetTable : List ℕ :=
  [64, 64, 17, 4, 191, 191, 185, 185, 0, 0, 0, 0, 0, 0, 0, 0]

/-- The per-character value of `base64url::decode32`: the class-selected
offset (with the `'_'` special case `63-'_' ≡ 224`) added byte-wise
(`add_epi8` wraps mod 256). -/
def b64Value (c : ℕ) : ℕ :=
  let shift := if c = 95 then 224 else b64OffsetTable.getD ((c >>> 4) &&& 15) 0
  (c + shift) % 256

/-- The packing arithmetic of `base64url::decode32` for consecutive
4-character groups: `maddubs` with weights `0x40,1` gives
`r0 = 64a + b`, `r1 = 64c + d` per group, `madd` with weights `0x1000,1`
gives `v = r0 * 4096 + r1`, and the output byte shuffle emits the three
bytes of `v` most significant first. -/
def decode32Quads : List ℕ → List ℕ
  | c1 :: c2 :: c3 :: c4 :: r =>
    let v := (64 * b64Value c1 + b64Value c2) * 4096
              + (64 * b64Value c3 + b64Value c4)
    ((v >>> 16) &&& 255) :: ((v >>> 8) &&& 255) :: (v &&& 255) :: decode32Quads r
  | _ => []

/-- `base64url::decode32`: all 32 characters are validated at once; on
success the block yields 24 output bytes. -/
def decode32 (cs : List ℕ) : Option (List ℕ) :=
  if cs.all b64Valid then some (decode32Quads cs) else none

/-- The block/scalar split of `base64url::decode` (AVX2 build): the loop
runs `decode32` on `⌊n/32⌋` 32-character blocks, then the scalar loop and
tail consume the rest. -/
def decodeGo (s : List ℕ) : Option (List ℕ) :=
  if 32 ≤ s.length then
    match decode32 (s.take 32) with
    | none => none
    | some out => (decodeGo (s.drop 32)).map (fun t => out ++ t)
  else decodeQuads s
termination_by s.length
decreasing_by
  simp only [List.length_drop]
  omega

/-- `base64url::decode` (AVX2 build): a length of 1 mod 4 is rejected up
front; then blocks, scalar groups and the tail. -/
def decode (s : List ℕ) : Option (List ℕ) :=
  if s.length % 4 = 1 then none else decodeGo s

/-- Spec-side hexadecimal digit class: ASCII `0-9`, `A-F`, `a-f`. -/
def hexDigitChar (c : ℕ) : Bool :=
  isDigit c || (65 ≤ c && c ≤ 70) || (97 ≤ c && c ≤ 102)

/-!
## Generic helper lemmas
-/

theorem lor_high_low : ∀ (n a b : ℕ), b < 2 ^ n → a <<< n ||| b = a * 2 ^ n + b := by
  intro n
  induction n with
  | zero =>
    intro a b h
    interval_cases b
    simp [Nat.shiftLeft_zero]
  | succ n ih =>
    intro a b h
    have hb := Nat.bit_decomp b
    have hdiv : b.div2 < 2 ^ n := by
      rw [Nat.div2_val]
      omega
    have hsh : a <<< (n + 1) = Nat.bit false (a <<< n) := by
      rw [Nat.bit_val, Nat.shiftLeft_eq, Nat.shiftLeft_eq, pow_succ]
      simp
      ring
    calc a <<< (n + 1) ||| b
        = Nat.bit false (a <<< n) ||| Nat.bit b.bodd b.div2 := by rw [hsh, hb]
      _ = Nat.bit (false || b.bodd) (a <<< n ||| b.div2) := Nat.lor_bit false (a <<< n) b.bodd b.div2
      _ = Nat.bit b.bodd (a * 2 ^ n + b.div2) := by rw [ih a b.div2 hdiv]; simp
      _ = a * 2 ^ (n + 1) + b := by
          rw [Nat.bit_val]
          have h1 := Nat.bit_val b.bodd b.div2
          rw [hb] at h1
          have h2 : a * 2 ^ (n + 1) = 2 * (a * 2 ^ n) := by rw [pow_succ]; ring
          omega

theorem digit_sbyte : ∀ c < 256,
    (decide (48 ≤ sbyte c) && decide (sbyte c ≤ 57)) = isDigit c := by decide

theorem dval_digit : ∀ c < 256, isDigit c = true → dval c = c - 48 := by decide

theorem isDigit_iff {c : ℕ} : isDigit c = true ↔ 48 ≤ c ∧ c ≤ 57 := by
  simp [isDigit]

theorem hexValid_eq : ∀ c < 256, hexValid c = hexDigitChar c := by decide

theorem hexNib_or32 : ∀ c < 256, hexDigitChar c = true →
    hexNib c = hexNib (c ||| 32) ∧ hexDigitChar (c ||| 32) = true := by decide

/-- `decVal` over a nonzero accumulator. -/
theorem decVal_foldl (s : List ℕ) : ∀ v : ℕ,
    s.foldl (fun a c => 10 * a + (c - 48)) v = v * 10 ^ s.length + decVal s := by
  induction s with
  | nil => intro v; simp [decVal]
  | cons c cs ih =>
    intro v
    show cs.foldl _ (10 * v + (c - 48)) = _
    rw [ih (10 * v + (c - 48))]
    have : decVal (c :: cs) = (c - 48) * 10 ^ cs.length + decVal cs := by
      show cs.foldl _ (10 * 0 + (c - 48)) = _
      rw [ih (10 * 0 + (c - 48))]
      ring_nf
    rw [this]
    simp [List.length_cons, pow_succ]
    ring

theorem decVal_append (a b : List ℕ) :
    decVal (a ++ b) = decVal a * 10 ^ b.length + decVal b := by
  unfold decVal
  rw [List.foldl_append]
  exact decVal_foldl b _

theorem decVal_replicate48 (k : ℕ) : decVal (List.replicate k 48) = 0 := by
  induction k with
  | zero => rfl
  | succ n ih =>
    rw [List.replicate_succ]
    show (List.replicate n 48).foldl _ (10 * 0 + (48 - 48)) = 0
    simpa [decVal] using ih

theorem decVal_replicate48_append (k : ℕ) (s : List ℕ) :
    decVal (List.replicate k 48 ++ s) = decVal s := by
  rw [decVal_append, decVal_replicate48]
  simp

theorem decVal_lt (s : List ℕ) (h : s.all isDigit = true) :
    decVal s < 10 ^ s.length := by
  induction s with
  | nil => simp [decVal]
  | cons c cs ih =>
    simp only [List.all_cons, Bool.and_eq_true] at h
    have h1 : decVal (c :: cs) = (c - 48) * 10 ^ cs.length + decVal cs := by
      show cs.foldl _ (10 * 0 + (c - 48)) = _
      rw [decVal_foldl cs (10 * 0 + (c - 48))]
      ring_nf
    have h2 : c - 48 ≤ 9 := by
      have := isDigit_iff.mp h.1
      omega
    have h3 := ih h.2
    rw [h1]
    calc (c - 48) * 10 ^ cs.length + decVal cs
        ≤ 9 * 10 ^ cs.length + decVal cs := by
          have := Nat.mul_le_mul_right (10 ^ cs.length) h2
          omega
      _ < 10 * 10 ^ cs.length := by omega
      _ = 10 ^ (c :: cs).length := by rw [List.length_cons, pow_succ]; ring

theorem digitSpan_all (s : List ℕ) (h : s.all isDigit = true) :
    digitSpan s = (s, []) := by
  induction s with
  | nil => rfl
  | cons c cs ih =>
    simp only [List.all_cons, Bool.and_eq_true] at h
    simp [digitSpan, h.1, ih h.2]

theorem digitSpan_spec (s : List ℕ) :
    (digitSpan s).1.all isDigit = true ∧ (digitSpan s).1 ++ (digitSpan s).2 = s := by
  induction s with
  | nil => simp [digitSpan]
  | cons c cs ih =>
    by_cases h : isDigit c = true
    · simp [digitSpan, h, ih.1, ih.2]
    · simp only [Bool.not_eq_true] at h
      simp [digitSpan, h]

theorem fromCharsU_digits (lim : ℕ) (s : List ℕ) (v0 : ℕ)
    (hne : s ≠ []) (hall : s.all isDigit = true) (hlt : decVal s < lim) :
    fromCharsU lim s v0 = (true, decVal s) := by
  simp [fromCharsU, digitSpan_all s hall, hne, Nat.not_le.mpr hlt]

theorem fromCharsU_success {lim : ℕ} {s : List ℕ} {v0 : ℕ}
    (h : (fromCharsU lim s v0).1 = true) :
    s ≠ [] ∧ s.all isDigit = true ∧ decVal s < lim ∧
      (fromCharsU lim s v0).2 = decVal s := by
  have hs1 := (digitSpan_spec s).1
  have hs2 := (digitSpan_spec s).2
  unfold fromCharsU at h ⊢
  set p := digitSpan s with hp
  by_cases h1 : p.1 = []
  · rw [if_pos h1] at h
    simp at h
  · rw [if_neg h1] at h ⊢
    by_cases h2 : lim ≤ decVal p.1
    · rw [if_pos h2] at h
      simp at h
    · rw [if_neg h2] at h ⊢
      have h3 : p.2 = [] := by simpa using h
      have h4 : p.1 = s := by rw [← hs2, h3, List.append_nil]
      rw [h4] at h1 hs1 h2 ⊢
      exact ⟨h1, hs1, by omega, rfl⟩

theorem fromCharsI_digits (s : List ℕ) (v0 : ℤ)
    (hne : s ≠ []) (hall : s.all isDigit = true) (hlt : decVal s < 2 ^ 31) :
    fromCharsI s v0 = (true, (decVal s : ℤ)) := by
  unfold fromCharsI
  split
  · simp [isDigit] at hall
  · simp only [digitSpan_all _ hall]
    simp [hne]
    omega

theorem subrange_two (s : List ℕ) (b : ℕ) (h : b + 2 ≤ s.length) :
    subrange s b (b + 2) = [s.getD b 0, s.getD (b + 1) 0] := by
  have h1 : b < s.length := by omega
  have h2 : b + 1 < s.length := by omega
  unfold subrange
  have e : b + 2 - b = 2 := by omega
  rw [e, List.drop_eq_getElem_cons h1, List.drop_eq_getElem_cons h2,
    List.getD_eq_getElem s 0 h1, List.getD_eq_getElem s 0 h2]
  rfl

theorem subrange_length (s : List ℕ) (b e : ℕ) :
    (subrange s b e).length ≤ e - b := by
  unfold subrange
  simp

theorem decVal_two_digits_lt (t : List ℕ) (h : t.all isDigit = true)
    (hl : t.length ≤ 2) : decVal t < 100 := by
  have := decVal_lt t h
  have h10 : 10 ^ t.length ≤ 10 ^ 2 := Nat.pow_le_pow_right (by norm_num) hl
  omega

theorem all_signed_digit (l : List ℕ) (hb : ∀ c ∈ l, c < 256) :
    (l.all fun c => decide (48 ≤ sbyte c) && decide (sbyte c ≤ 57)) = l.all isDigit := by
  induction l with
  | nil => rfl
  | cons c cs ih =>
    rw [List.all_cons, List.all_cons, digit_sbyte c (hb c (List.mem_cons_self c cs)),
      ih (fun x hx => hb x (List.mem_cons_of_mem c hx))]

theorem decParseSimd_eq (s : List ℕ) (v0 : ℕ)
    (hb : ∀ c ∈ s, c < 256) (hl : s.length ≤ 16) :
    decParseSimd s v0 = if s.all isDigit then (true, decVal s) else (false, v0) := by
  simp only [decParseSimd]
  have hbb : ∀ c ∈ List.replicate (16 - s.length) 48 ++ s, c < 256 := by
    intro c hc
    rcases List.mem_append.mp hc with hc | hc
    · rw [List.eq_of_mem_replicate hc]; norm_num
    · exact hb c hc
  rw [all_signed_digit _ hbb, List.all_append]
  have hrep : (List.replicate (16 - s.length) 48).all isDigit = true := by
    rw [List.all_eq_true]
    intro c hc
    rw [List.eq_of_mem_replicate hc]
    decide
  rw [hrep, Bool.true_and]
  by_cases hd : s.all isDigit = true
  · rw [if_pos hd, if_pos hd]
    have hlen : (List.replicate (16 - s.length) 48 ++ s).length = 16 := by
      simp
      omega
    have hdroplen : ((List.replicate (16 - s.length) 48 ++ s).drop 8).length = 8 := by
      rw [List.length_drop, hlen]
    have hval : decVal (List.replicate (16 - s.length) 48 ++ s)
        = decVal ((List.replicate (16 - s.length) 48 ++ s).take 8) * 10 ^ 8
          + decVal ((List.replicate (16 - s.length) 48 ++ s).drop 8) := by
      conv_lhs => rw [← List.take_append_drop 8 (List.replicate (16 - s.length) 48 ++ s)]
      rw [decVal_append, hdroplen]
    rw [decVal_replicate48_append] at hval
    have : (100000000 : ℕ) * decVal ((List.replicate (16 - s.length) 48 ++ s).take 8)
          + decVal ((List.replicate (16 - s.length) 48 ++ s).drop 8) = decVal s := by
      rw [hval]
      ring
    rw [this]
  · rw [if_neg hd, if_neg hd]

theorem all_hexValid_eq (l : List ℕ) (hb : ∀ c ∈ l, c < 256) :
    l.all hexValid = l.all hexDigitChar := by
  induction l with
  | nil => rfl
  | cons c cs ih =>
    rw [List.all_cons, List.all_cons, hexValid_eq c (hb c (List.mem_cons_self c cs)),
      ih (fun x hx => hb x (List.mem_cons_of_mem c hx))]

theorem hexVal_foldl (s : List ℕ) : ∀ v : ℕ,
    s.foldl (fun a c => 16 * a + hexNib c) v = v * 16 ^ s.length + hexVal s := by
  induction s with
  | nil => intro v; simp [hexVal]
  | cons c cs ih =>
    intro v
    show cs.foldl _ (16 * v + hexNib c) = _
    rw [ih (16 * v + hexNib c)]
    have : hexVal (c :: cs) = hexNib c * 16 ^ cs.length + hexVal cs := by
      show cs.foldl _ (16 * 0 + hexNib c) = _
      rw [ih (16 * 0 + hexNib c)]
      ring_nf
    rw [this]
    simp [List.length_cons, pow_succ]
    ring

theorem hexVal_cons (c : ℕ) (cs : List ℕ) :
    hexVal (c :: cs) = hexNib c * 16 ^ cs.length + hexVal cs := by
  show cs.foldl _ (16 * 0 + hexNib c) = _
  rw [hexVal_foldl cs (16 * 0 + hexNib c)]
  ring_nf

theorem hexVal_replicate48_append (k : ℕ) (s : List ℕ) :
    hexVal (List.replicate k 48 ++ s) = hexVal s := by
  induction k with
  | zero => rfl
  | succ n ih =>
    rw [List.replicate_succ, List.cons_append, hexVal_cons, ih]
    have : hexNib 48 = 0 := by decide
    simp [this]

theorem hexNib_lt (c : ℕ) (hc : c < 256) (hd : hexDigitChar c = true) :
    hexNib c < 16 := by
  revert hd
  revert hc
  revert c
  decide

theorem hexVal_lt (s : List ℕ) (hb : ∀ c ∈ s, c < 256)
    (h : s.all hexDigitChar = true) : hexVal s < 16 ^ s.length := by
  induction s with
  | nil => simp [hexVal]
  | cons c cs ih =>
    simp only [List.all_cons, Bool.and_eq_true] at h
    have h1 := hexNib_lt c (hb c (List.mem_cons_self c cs)) h.1
    have h2 := ih (fun x hx => hb x (List.mem_cons_of_mem c hx)) h.2
    rw [hexVal_cons]
    calc hexNib c * 16 ^ cs.length + hexVal cs
        ≤ 15 * 16 ^ cs.length + hexVal cs := by
          have := Nat.mul_le_mul_right (16 ^ cs.length) (by omega : hexNib c ≤ 15)
          omega
      _ < 16 * 16 ^ cs.length := by omega
      _ = 16 ^ (c :: cs).length := by rw [List.length_cons, pow_succ]; ring

theorem hexParseHexa_eq (s : List ℕ) (v0 : ℕ)
    (hb : ∀ c ∈ s, c < 256) (hl : s.length ≤ 16) :
    hexParseHexa s v0 = if s.all hexDigitChar then (true, hexVal s) else (false, v0) := by
  simp only [hexParseHexa]
  have hbb : ∀ c ∈ List.replicate (16 - s.length) 48 ++ s, c < 256 := by
    intro c hc
    rcases List.mem_append.mp hc with hc | hc
    · rw [List.eq_of_mem_replicate hc]; norm_num
    · exact hb c hc
  rw [all_hexValid_eq _ hbb, List.all_append]
  have hrep : (List.replicate (16 - s.length) 48).all hexDigitChar = true := by
    rw [List.all_eq_true]
    intro c hc
    rw [List.eq_of_mem_replicate hc]
    decide
  rw [hrep, Bool.true_and, hexVal_replicate48_append]

theorem hexVal_or32_eq : ∀ (h1 h2 : List ℕ),
    (∀ c ∈ h1, c < 256) → (∀ c ∈ h2, c < 256) →
    h1.all hexDigitChar = true → h2.all hexDigitChar = true →
    h1.map (fun c => c ||| 32) = h2.map (fun c => c ||| 32) →
    hexVal h1 = hexVal h2 := by
  intro h1
  induction h1 with
  | nil =>
    intro h2 _ _ _ _ hm
    have : h2 = [] := by
      cases h2 with
      | nil => rfl
      | cons a as => simp at hm
    rw [this]
  | cons c cs ih =>
    intro h2 hb1 hb2 hd1 hd2 hm
    cases h2 with
    | nil => simp at hm
    | cons a as =>
      simp only [List.map_cons, List.cons.injEq] at hm
      simp only [List.all_cons, Bool.and_eq_true] at hd1 hd2
      have hcn : hexNib c = hexNib a := by
        have e1 := (hexNib_or32 c (hb1 c (List.mem_cons_self c cs)) hd1.1).1
        have e2 := (hexNib_or32 a (hb2 a (List.mem_cons_self a as)) hd2.1).1
        rw [e1, e2, hm.1]
      have hlen : cs.length = as.length := by
        have := congrArg List.length hm.2
        simpa using this
      rw [hexVal_cons, hexVal_cons, hcn, hlen,
        ih as (fun x hx => hb1 x (List.mem_cons_of_mem c hx))
          (fun x hx => hb2 x (List.mem_cons_of_mem a hx)) hd1.2 hd2.2 hm.2]

theorem hexParse_strip (h : List ℕ) (v0 : ℕ)
    (hne : 1 ≤ h.length) (hall : h.all hexDigitChar = true) :
    hexParse h v0 = hexParseString h v0 ∧
      hexParse (48 :: 120 :: h) v0 = hexParseString h v0 := by
  constructor
  · unfold hexParse
    by_cases hl : h.length > 2
    · have hlt : (1 : ℕ) < h.length := by omega
      have h1 : h.getD 1 0 ∈ h := by
        rw [List.getD_eq_getElem h 0 hlt]
        exact List.getElem_mem hlt
      have h2 : hexDigitChar (h.getD 1 0) = true := by
        rw [List.all_eq_true] at hall
        exact hall _ h1
      have h3 : h.getD 1 0 ≠ 120 := by
        intro hc
        rw [hc] at h2
        simp [hexDigitChar, isDigit] at h2
      rw [List.getD_eq_getElem?_getD] at h3
      simp [hl, h3]
    · simp [hl]
  · unfold hexParse
    have hne2 : h ≠ [] := by
      intro hc
      rw [hc] at hne
      simp at hne
    simp [hne2]

theorem letter_bridge : ∀ c < 256, ∀ u < 91, 65 ≤ u →
    letterCaseEq c u = (maybeLetter c && decide ((c &&& 31) = (u &&& 31))) := by decide

theorem and31_eq_mod (x : ℕ) : x &&& 31 = x % 32 := by
  have := Nat.and_pow_two_sub_one_eq_mod x 5
  norm_num at this
  exact this

theorem and15_eq_mod (x : ℕ) : x &&& 15 = x % 16 := by
  have := Nat.and_pow_two_sub_one_eq_mod x 4
  norm_num at this
  exact this

theorem monthToInteger_eq (c1 c2 c3 : ℕ) :
    monthToInteger c1 c2 c3 = (c1 &&& 31) * 1024 + (c2 &&& 31) * 32 + (c3 &&& 31) := by
  unfold monthToInteger
  have hb2 : c2 &&& 31 < 32 := by rw [and31_eq_mod]; omega
  have hb3 : c3 &&& 31 < 32 := by rw [and31_eq_mod]; omega
  rw [Nat.lor_assoc, lor_high_low 5 (c2 &&& 31) (c3 &&& 31) (by norm_num [hb3] : c3 &&& 31 < 2 ^ 5)]
  have hlow : (c2 &&& 31) * 2 ^ 5 + (c3 &&& 31) < 2 ^ 10 := by norm_num; omega
  rw [lor_high_low 10 (c1 &&& 31) _ hlow]
  norm_num
  ring

theorem monthMatches_bridge (c1 c2 c3 U1 U2 U3 : ℕ)
    (h1 : c1 < 256) (h2 : c2 < 256) (h3 : c3 < 256)
    (hU1 : 65 ≤ U1 ∧ U1 ≤ 90) (hU2 : 65 ≤ U2 ∧ U2 ≤ 90) (hU3 : 65 ≤ U3 ∧ U3 ≤ 90) :
    monthMatches c1 c2 c3 (U1, U2, U3) = true ↔
      (maybeLetter c1 = true ∧ maybeLetter c2 = true ∧ maybeLetter c3 = true ∧
        monthToInteger c1 c2 c3
          = (U1 &&& 31) * 1024 + (U2 &&& 31) * 32 + (U3 &&& 31)) := by
  unfold monthMatches
  rw [letter_bridge c1 h1 U1 (by omega) hU1.1,
    letter_bridge c2 h2 U2 (by omega) hU2.1,
    letter_bridge c3 h3 U3 (by omega) hU3.1,
    monthToInteger_eq]
  simp only [Bool.and_eq_true, decide_eq_true_eq]
  constructor
  · rintro ⟨⟨⟨hl1, he1⟩, hl2, he2⟩, hl3, he3⟩
    exact ⟨hl1, hl2, hl3, by rw [he1, he2, he3]⟩
  · rintro ⟨hl1, hl2, hl3, he⟩
    have b1 : c1 &&& 31 < 32 := by rw [and31_eq_mod]; omega
    have b2 : c2 &&& 31 < 32 := by rw [and31_eq_mod]; omega
    have b3 : c3 &&& 31 < 32 := by rw [and31_eq_mod]; omega
    have B1 : U1 &&& 31 < 32 := by rw [and31_eq_mod]; omega
    have B2 : U2 &&& 31 < 32 := by rw [and31_eq_mod]; omega
    have B3 : U3 &&& 31 < 32 := by rw [and31_eq_mod]; omega
    refine ⟨⟨⟨hl1, by omega⟩, hl2, by omega⟩, hl3, by omega⟩

theorem monthValues_pack : ∀ i < 12,
    monthValues.getD i 0
      = ((monthAbbrevs.getD i (0, 0, 0)).1 &&& 31) * 1024
        + ((monthAbbrevs.getD i (0, 0, 0)).2.1 &&& 31) * 32
        + ((monthAbbrevs.getD i (0, 0, 0)).2.2 &&& 31) := by decide

theorem monthAbbrevs_bounds : ∀ i < 12,
    (65 ≤ (monthAbbrevs.getD i (0, 0, 0)).1 ∧ (monthAbbrevs.getD i (0, 0, 0)).1 ≤ 90) ∧
    (65 ≤ (monthAbbrevs.getD i (0, 0, 0)).2.1 ∧ (monthAbbrevs.getD i (0, 0, 0)).2.1 ≤ 90) ∧
    (65 ≤ (monthAbbrevs.getD i (0, 0, 0)).2.2 ∧ (monthAbbrevs.getD i (0, 0, 0)).2.2 ≤ 90) := by
  decide

theorem monthHash_consistent : ∀ i < 12,
    monthOffsets.getD ((68 * monthValues.getD i 0 % 929) &&& 15) 0 = i := by decide

theorem monthValues_distinct : ∀ i < 12, ∀ j < 12,
    monthValues.getD i 0 = monthValues.getD j 0 → i = j := by decide

theorem monthOffsets_range : ∀ k < 16,
    monthOffsets.getD k 0 ≤ 11 ∨ monthOffsets.getD k 0 = 15 := by decide

theorem monthMatches_abbrev_iff (c1 c2 c3 : ℕ)
    (h1 : c1 < 256) (h2 : c2 < 256) (h3 : c3 < 256) (i : ℕ) (hi : i < 12) :
    monthMatches c1 c2 c3 (monthAbbrevs.getD i (0, 0, 0)) = true ↔
      (maybeLetter c1 = true ∧ maybeLetter c2 = true ∧ maybeLetter c3 = true ∧
        monthToInteger c1 c2 c3 = monthValues.getD i 0) := by
  obtain ⟨hU1, hU2, hU3⟩ := monthAbbrevs_bounds i hi
  have hpk := monthValues_pack i hi
  rw [hpk]
  have := monthMatches_bridge c1 c2 c3
    (monthAbbrevs.getD i (0, 0, 0)).1
    (monthAbbrevs.getD i (0, 0, 0)).2.1
    (monthAbbrevs.getD i (0, 0, 0)).2.2 h1 h2 h3 hU1 hU2 hU3
  exact this

theorem monthFind_eq_zero (c1 c2 c3 : ℕ) :
    ∀ (l : List (ℕ × ℕ × ℕ)) (k : ℕ),
      (∀ t ∈ l, monthMatches c1 c2 c3 t = false) → monthFind c1 c2 c3 l k = 0 := by
  intro l
  induction l with
  | nil => intro k _; rfl
  | cons t ts ih =>
    intro k h
    unfold monthFind
    rw [h t (List.mem_cons_self t ts)]
    exact ih (k + 1) (fun x hx => h x (List.mem_cons_of_mem t hx))

theorem monthFind_found (c1 c2 c3 : ℕ) :
    ∀ (l : List (ℕ × ℕ × ℕ)) (k i : ℕ), i < l.length →
      monthMatches c1 c2 c3 (l.getD i (0, 0, 0)) = true →
      (∀ j < i, monthMatches c1 c2 c3 (l.getD j (0, 0, 0)) = false) →
      monthFind c1 c2 c3 l k = k + i + 1 := by
  intro l
  induction l with
  | nil => intro k i hi; simp at hi
  | cons t ts ih =>
    intro k i hi hm hprev
    unfold monthFind
    cases i with
    | zero =>
      simp only [List.getD_cons_zero] at hm
      rw [hm]
      simp
    | succ n =>
      have h0 : monthMatches c1 c2 c3 t = false := by
        have := hprev 0 (Nat.succ_pos n)
        simpa using this
      rw [h0]
      simp only [Bool.false_eq_true, if_false]
      have := ih (k + 1) n (by simpa using hi) (by simpa using hm)
        (fun j hj => by simpa using hprev (j + 1) (by omega))
      rw [this]
      omega

theorem rfcGather_length (s : List ℕ) (hl : 36 ≤ s.length) :
    (rfcGather s).length = 32 := by
  unfold rfcGather
  simp only [List.length_append, List.length_take, List.length_drop]
  omega

theorem rfcGather_append (x t : List ℕ) (hx : x.length = 36) :
    rfcGather (x ++ t) = rfcGather x := by
  unfold rfcGather
  rw [List.take_append_eq_append_take, List.drop_append_eq_append_drop,
    List.drop_append_eq_append_drop, List.drop_append_eq_append_drop,
    List.drop_append_eq_append_drop]
  rw [List.take_append_eq_append_take, List.take_append_eq_append_take,
    List.take_append_eq_append_take, List.take_append_eq_append_take]
  simp [hx, List.length_take, List.length_drop]

theorem getD_take_lt (l : List ℕ) (n i : ℕ) (h : i < n) :
    (l.take n).getD i 0 = l.getD i 0 := by
  simp [List.getD_eq_getElem?_getD, List.getElem?_take, h]

theorem getD_drop_add (l : List ℕ) (n i : ℕ) :
    (l.drop n).getD i 0 = l.getD (n + i) 0 := by
  simp [List.getD_eq_getElem?_getD, List.getElem?_drop]

theorem rfcGather_getD (s : List ℕ) (hl : 36 ≤ s.length)
    (i : ℕ) (hi : i < 32) : (rfcGather s).getD i 0 = s.getD (dashedPos i) 0 := by
  have l1 : (s.take 8).length = 8 := by simp; omega
  have l2 : ((s.drop 9).take 4).length = 4 := by simp; omega
  have l3 : ((s.drop 14).take 4).length = 4 := by simp; omega
  have l4 : ((s.drop 19).take 4).length = 4 := by simp; omega
  unfold rfcGather
  rw [List.append_assoc, List.append_assoc, List.append_assoc]
  by_cases h8 : i < 8
  · have e : dashedPos i = i := by unfold dashedPos; rw [if_pos h8]
    rw [e, List.getD_append _ _ _ i (by omega), getD_take_lt s 8 i h8]
  · rw [List.getD_append_right _ _ _ i (by omega)]
    rw [l1]
    by_cases h12 : i < 12
    · have e : dashedPos i = i + 1 := by
        unfold dashedPos
        rw [if_neg h8, if_pos h12]
      rw [e, List.getD_append _ _ _ (i - 8) (by omega),
        getD_take_lt _ 4 (i - 8) (by omega), getD_drop_add]
      congr 1
      omega
    · rw [List.getD_append_right _ _ _ (i - 8) (by omega)]
      rw [l2]
      by_cases h16 : i < 16
      · have e : dashedPos i = i + 2 := by
          unfold dashedPos
          rw [if_neg h8, if_neg h12, if_pos h16]
        rw [e, List.getD_append _ _ _ (i - 8 - 4) (by omega),
          getD_take_lt _ 4 (i - 8 - 4) (by omega), getD_drop_add]
        congr 1
        omega
      · rw [List.getD_append_right _ _ _ (i - 8 - 4) (by omega)]
        rw [l3]
        by_cases h20 : i < 20
        · have e : dashedPos i = i + 3 := by
            unfold dashedPos
            rw [if_neg h8, if_neg h12, if_neg h16, if_pos h20]
          rw [e, List.getD_append _ _ _ (i - 8 - 4 - 4) (by omega),
            getD_take_lt _ 4 (i - 8 - 4 - 4) (by omega), getD_drop_add]
          congr 1
          omega
        · have e : dashedPos i = i + 4 := by
            unfold dashedPos
            rw [if_neg h8, if_neg h12, if_neg h16, if_neg h20]
          rw [e, List.getD_append_right _ _ _ (i - 8 - 4 - 4) (by omega)]
          rw [l4, getD_take_lt _ 12 _ (by omega), getD_drop_add]
          congr 1
          omega

theorem insertDashes_length (h : List ℕ) (hl : h.length = 32) :
    (insertDashes h).length = 36 := by
  unfold insertDashes
  simp
  omega

theorem rfcGather_insertDashes (h : List ℕ) (hl : h.length = 32) :
    rfcGather (insertDashes h) = h := by
  unfold rfcGather insertDashes
  have lA : (h.take 8).length = 8 := by simp; omega
  have lB : ((h.drop 8).take 4).length = 4 := by simp; omega
  have lC : ((h.drop 12).take 4).length = 4 := by simp; omega
  have lD : ((h.drop 16).take 4).length = 4 := by simp; omega
  have z1 : List.drop 9 (h.take 8) = [] := List.drop_eq_nil_of_le (by omega)
  have z2 : List.drop 14 (h.take 8) = [] := List.drop_eq_nil_of_le (by omega)
  have z3 : List.drop 19 (h.take 8) = [] := List.drop_eq_nil_of_le (by omega)
  have z4 : List.drop 24 (h.take 8) = [] := List.drop_eq_nil_of_le (by omega)
  have z5 : List.drop 5 ((h.drop 8).take 4) = [] := List.drop_eq_nil_of_le (by omega)
  have z6 : List.drop 10 ((h.drop 8).take 4) = [] := List.drop_eq_nil_of_le (by omega)
  have z7 : List.drop 15 ((h.drop 8).take 4) = [] := List.drop_eq_nil_of_le (by omega)
  have z8 : List.drop 5 ((h.drop 12).take 4) = [] := List.drop_eq_nil_of_le (by omega)
  have z9 : List.drop 10 ((h.drop 12).take 4) = [] := List.drop_eq_nil_of_le (by omega)
  have z10 : List.drop 5 ((h.drop 16).take 4) = [] := List.drop_eq_nil_of_le (by omega)
  simp only [List.take_append_eq_append_take, List.drop_append_eq_append_drop,
    lA, lB, lC, lD, List.length_cons, List.length_take, List.length_drop,
    List.drop_succ_cons, List.take_succ_cons,
    z1, z2, z3, z4, z5, z6, z7, z8, z9, z10]
  norm_num
  simp only [List.take_take]
  norm_num
  rw [List.take_of_length_le (show (List.drop 20 h).length ≤ 12 by simp; omega)]
  have d1 : List.drop 4 (List.drop 8 h) = List.drop 12 h := by rw [List.drop_drop]
  have d2 : List.drop 4 (List.drop 12 h) = List.drop 16 h := by rw [List.drop_drop]
  have d3 : List.drop 4 (List.drop 16 h) = List.drop 20 h := by rw [List.drop_drop]
  conv_rhs => rw [← List.take_append_drop 8 h, ← List.take_append_drop 4 (h.drop 8), d1,
    ← List.take_append_drop 4 (h.drop 12), d2, ← List.take_append_drop 4 (h.drop 16), d3]

theorem dashedPos_lt (i : ℕ) (hi : i < 32) : dashedPos i < 36 := by
  unfold dashedPos
  split_ifs <;> omega

theorem getD_set_self (l : List ℕ) (i : ℕ) (b : ℕ) (hi : i < l.length) :
    (l.set i b).getD i 0 = b := by
  rw [List.getD_eq_getElem?_getD, List.getElem?_set_self hi]
  rfl

theorem map_hexNib_eq : ∀ (h1 h2 : List ℕ),
    (∀ c ∈ h1, c < 256) → (∀ c ∈ h2, c < 256) →
    h1.all hexDigitChar = true → h2.all hexDigitChar = true →
    h1.map (fun c => c ||| 32) = h2.map (fun c => c ||| 32) →
    h1.map hexNib = h2.map hexNib := by
  intro h1
  induction h1 with
  | nil =>
    intro h2 _ _ _ _ hm
    cases h2 with
    | nil => rfl
    | cons a as => simp at hm
  | cons c cs ih =>
    intro h2 hb1 hb2 hd1 hd2 hm
    cases h2 with
    | nil => simp at hm
    | cons a as =>
      simp only [List.map_cons, List.cons.injEq] at hm ⊢
      simp only [List.all_cons, Bool.and_eq_true] at hd1 hd2
      refine ⟨?_, ih as (fun x hx => hb1 x (List.mem_cons_of_mem c hx))
        (fun x hx => hb2 x (List.mem_cons_of_mem a hx)) hd1.2 hd2.2 hm.2⟩
      have e1 := (hexNib_or32 c (hb1 c (List.mem_cons_self c cs)) hd1.1).1
      have e2 := (hexNib_or32 a (hb2 a (List.mem_cons_self a as)) hd2.1).1
      rw [e1, e2, hm.1]

theorem packPairs_eq_packNibs : ∀ h : List ℕ, packPairs h = packNibs (h.map hexNib)
  | [] => rfl
  | [_] => rfl
  | a :: b :: r => by
    simp only [List.map_cons]
    unfold packPairs packNibs
    rw [packPairs_eq_packNibs r]

theorem uuidParseCore_valid (g : List ℕ) (id0 : List ℕ)
    (hb : ∀ c ∈ g, c < 256) (hd : g.all hexDigitChar = true) :
    uuidParseCore g id0 = (true, packPairs g) := by
  unfold uuidParseCore
  rw [all_hexValid_eq g hb, hd]
  rfl

theorem uuidParseCore_invalid (g : List ℕ) (id0 : List ℕ)
    (c : ℕ) (hc : c ∈ g) (hv : hexValid c = false) :
    (uuidParseCore g id0).1 = false := by
  unfold uuidParseCore
  have : g.all hexValid = false := by
    by_contra hx
    rw [Bool.not_eq_false, List.all_eq_true] at hx
    rw [hx c hc] at hv
    simp at hv
  rw [this]
  rfl

/-!
### Base64url helper lemmas
-/

theorem dec_enc : ∀ v < 64, dec (enc v) = v := by decide
theorem encB1 : ∀ a < 256, (a >>> 2) &&& 63 = a / 4 := by decide
theorem encB4 : ∀ c < 256, c &&& 63 = c % 64 := by decide
theorem lor_lt_64 : ∀ x < 64, ∀ y < 64, x ||| y < 64 := by decide
theorem and64_zero : ∀ x < 64, x &&& 64 = 0 := by decide
theorem b64_dec : ∀ c < 256, b64Valid c = true → dec c < 64 ∧ b64Value c = dec c := by decide
theorem enc_valid : ∀ v < 64, enc v < 256 ∧ b64Valid (enc v) = true := by decide
theorem tail1_round : ∀ a < 256, decodeQuads (encode [a]) = some [a] := by decide

theorem and3_shl4 : ∀ a < 256, (a &&& 3) <<< 4 = (a % 4) * 16 := by decide
theorem shr4_and15 : ∀ b < 256, (b >>> 4) &&& 15 = b / 16 := by decide
theorem and15_shl2 : ∀ b < 256, (b &&& 15) <<< 2 = (b % 16) * 4 := by decide
theorem shr6_and3 : ∀ c < 256, (c >>> 6) &&& 3 = c / 64 := by decide

theorem encB2 (a b : ℕ) (ha : a < 256) (hb : b < 256) :
    ((a &&& 3) <<< 4) ||| ((b >>> 4) &&& 15) = (a % 4) * 16 + b / 16 := by
  rw [and3_shl4 a ha, shr4_and15 b hb]
  rw [show (a % 4) * 16 = (a % 4) <<< 4 from by rw [Nat.shiftLeft_eq]]
  rw [lor_high_low 4 _ _ (by omega)]
  all_goals omega

theorem encB3 (b c : ℕ) (hb : b < 256) (hc : c < 256) :
    ((b &&& 15) <<< 2) ||| ((c >>> 6) &&& 3) = (b % 16) * 4 + c / 64 := by
  rw [and15_shl2 b hb, shr6_and3 c hc]
  rw [show (b % 16) * 4 = (b % 16) <<< 2 from by rw [Nat.shiftLeft_eq]]
  rw [lor_high_low 2 _ _ (by omega)]
  all_goals omega

theorem shr_and255 (t k : ℕ) : (t >>> k) &&& 255 = t / 2 ^ k % 256 := by
  rw [Nat.shiftRight_eq_div_pow, show (255 : ℕ) = 2 ^ 8 - 1 from by norm_num,
    Nat.and_pow_two_sub_one_eq_mod]

theorem and255 (t : ℕ) : t &&& 255 = t % 256 := by
  rw [show (255 : ℕ) = 2 ^ 8 - 1 from by norm_num, Nat.and_pow_two_sub_one_eq_mod]

theorem pack3 (x y z : ℕ) (hy : y < 64) (hz : z < 64) :
    (x <<< 12) ||| (y <<< 6) ||| z = (64 * x + y) * 64 + z := by
  rw [Nat.lor_assoc, lor_high_low 6 y z (by omega), lor_high_low 12 x _ (by omega)]
  omega

theorem pack4 (x y z w : ℕ) (hy : y < 64) (hz : z < 64) (hw : w < 64) :
    (x <<< 18) ||| (y <<< 12) ||| (z <<< 6) ||| w = ((64 * x + y) * 64 + z) * 64 + w := by
  rw [Nat.lor_assoc, Nat.lor_assoc, lor_high_low 6 z w (by omega),
    lor_high_low 12 y _ (by omega), lor_high_low 18 x _ (by omega)]
  all_goals omega

theorem quad_roundtrip (a b c : ℕ) (ha : a < 256) (hb : b < 256) (hc : c < 256) :
    quadBytes (a / 4) ((a % 4) * 16 + b / 16) ((b % 16) * 4 + c / 64) (c % 64) = [a, b, c] := by
  simp only [quadBytes]
  rw [pack4 _ _ _ _ (by omega) (by omega) (by omega)]
  rw [shr_and255, shr_and255, and255]
  simp only [List.cons.injEq, and_true]
  refine ⟨?_, ?_, ?_⟩ <;> omega

theorem tail2_round (a b : ℕ) (ha : a < 256) (hb : b < 256) :
    decodeQuads (encode [a, b]) = some [a, b] := by
  rw [show encode [a, b] = [enc ((a >>> 2) &&& 63),
      enc (((a &&& 3) <<< 4) ||| ((b >>> 4) &&& 15)), enc ((b &&& 15) <<< 2)] from rfl]
  rw [encB1 a ha, encB2 a b ha hb, and15_shl2 b hb]
  simp only [decodeQuads]
  rw [dec_enc _ (by omega), dec_enc _ (by omega), dec_enc _ (by omega)]
  rw [if_neg (by
    push_neg
    exact and64_zero _ (lor_lt_64 _ (lor_lt_64 _ (by omega) _ (by omega)) _ (by omega)))]
  rw [pack3 _ _ _ (by omega) (by omega)]
  rw [shr_and255, shr_and255]
  simp only [Option.some.injEq, List.cons.injEq, and_true]
  refine ⟨?_, ?_⟩ <;> omega

theorem encode_length : ∀ bs : List ℕ,
    (encode bs).length = 4 * (bs.length / 3)
      + (if bs.length % 3 = 0 then 0 else if bs.length % 3 = 1 then 2 else 3)
  | [] => by simp [encode]
  | [a] => by simp [encode]
  | [a, b] => by simp [encode]
  | a :: b :: c :: r => by
    have ih := encode_length r
    simp only [encode, List.length_cons]
    rw [ih]
    split_ifs <;> omega

theorem decodeQuads_encode : ∀ bs : List ℕ, (∀ c ∈ bs, c < 256) →
    decodeQuads (encode bs) = some bs
  | [], _ => rfl
  | [a], h => tail1_round a (h a (by simp))
  | [a, b], h => tail2_round a b (h a (by simp)) (h b (by simp))
  | a :: b :: c :: r, h => by
    have ha : a < 256 := h a (by simp)
    have hb : b < 256 := h b (by simp)
    have hc : c < 256 := h c (by simp)
    have ih := decodeQuads_encode r (fun x hx => h x (by simp [hx]))
    rw [show encode (a :: b :: c :: r)
        = enc ((a >>> 2) &&& 63)
          :: enc (((a &&& 3) <<< 4) ||| ((b >>> 4) &&& 15))
          :: enc (((b &&& 15) <<< 2) ||| ((c >>> 6) &&& 3))
          :: enc (c &&& 63) :: encode r from rfl]
    rw [encB1 a ha, encB2 a b ha hb, encB3 b c hb hc, encB4 c hc]
    simp only [decodeQuads]
    rw [dec_enc _ (by omega), dec_enc _ (by omega), dec_enc _ (by omega), dec_enc _ (by omega)]
    rw [if_neg (by
      push_neg
      exact and64_zero _ (lor_lt_64 _ (lor_lt_64 _ (lor_lt_64 _ (by omega) _ (by omega))
        _ (by omega)) _ (by omega)))]
    rw [ih, quad_roundtrip a b c ha hb hc]
    rfl

theorem quadBytes_eq_v (x y z w : ℕ) (hy : y < 64) (hz : z < 64) (hw : w < 64) :
    quadBytes x y z w
      = [((64 * x + y) * 4096 + (64 * z + w)) >>> 16 &&& 255,
         ((64 * x + y) * 4096 + (64 * z + w)) >>> 8 &&& 255,
         ((64 * x + y) * 4096 + (64 * z + w)) &&& 255] := by
  simp only [quadBytes]
  rw [pack4 x y z w hy hz hw]
  have hv : ((64 * x + y) * 64 + z) * 64 + w = (64 * x + y) * 4096 + (64 * z + w) := by ring
  rw [hv]

theorem decode32Quads_eq : ∀ q : List ℕ, q.length % 4 = 0 →
    (∀ c ∈ q, c < 256 ∧ b64Valid c = true) → decodeQuads q = some (decode32Quads q)
  | [], _, _ => rfl
  | [_], hlen, _ => by simp at hlen
  | [_, _], hlen, _ => by simp at hlen
  | [_, _, _], hlen, _ => by simp at hlen
  | c1 :: c2 :: c3 :: c4 :: r, hlen, h => by
    have hrlen : r.length % 4 = 0 := by simp at hlen; omega
    have h1 := b64_dec c1 (h c1 (by simp)).1 (h c1 (by simp)).2
    have h2 := b64_dec c2 (h c2 (by simp)).1 (h c2 (by simp)).2
    have h3 := b64_dec c3 (h c3 (by simp)).1 (h c3 (by simp)).2
    have h4 := b64_dec c4 (h c4 (by simp)).1 (h c4 (by simp)).2
    have ih := decode32Quads_eq r hrlen (fun c hc => h c (by simp [hc]))
    simp only [decodeQuads, decode32Quads]
    rw [if_neg (by
      push_neg
      exact and64_zero _ (lor_lt_64 _ (lor_lt_64 _ (lor_lt_64 _ h1.1 _ h2.1) _ h3.1) _ h4.1))]
    rw [ih, h1.2, h2.2, h3.2, h4.2, quadBytes_eq_v _ _ _ _ h2.1 h3.1 h4.1]
    rfl

theorem decodeQuads_append : ∀ q : List ℕ, q.length % 4 = 0 → ∀ out : List ℕ,
    decodeQuads q = some out → ∀ rest : List ℕ,
    decodeQuads (q ++ rest) = (decodeQuads rest).map (fun t => out ++ t)
  | [], _, out, hq, rest => by
    simp only [decodeQuads, Option.some.injEq] at hq
    rw [List.nil_append, ← hq]
    simp
  | [_], hlen, _, _, _ => by simp at hlen
  | [_, _], hlen, _, _, _ => by simp at hlen
  | [_, _, _], hlen, _, _, _ => by simp at hlen
  | c1 :: c2 :: c3 :: c4 :: r, hlen, out, hq, rest => by
    have hrlen : r.length % 4 = 0 := by simp at hlen; omega
    simp only [decodeQuads] at hq
    by_cases hg : (dec c1 ||| dec c2 ||| dec c3 ||| dec c4) &&& 64 ≠ 0
    · rw [if_pos hg] at hq
      exact absurd hq (by simp)
    · rw [if_neg hg] at hq
      cases hr : decodeQuads r with
      | none => rw [hr] at hq; simp at hq
      | some out' =>
        rw [hr] at hq
        simp only [Option.map_some', Option.some.injEq] at hq
        have ih := decodeQuads_append r hrlen out' hr rest
        show decodeQuads (c1 :: c2 :: c3 :: c4 :: (r ++ rest)) = _
        simp only [decodeQuads]
        rw [if_neg hg, ih]
        cases hrest : decodeQuads rest <;> simp [← hq, List.append_assoc]

theorem decodeGo_eq_aux : ∀ n : ℕ, ∀ s : List ℕ, s.length ≤ n →
    (∀ c ∈ s, c < 256 ∧ b64Valid c = true) → decodeGo s = decodeQuads s := by
  intro n
  induction n with
  | zero =>
    intro s hlen _
    have hnil : s = [] := List.length_eq_zero.mp (by omega)
    subst hnil
    rw [decodeGo]
    rw [if_neg (by simp)]
  | succ n ih =>
    intro s hlen h
    by_cases h32 : 32 ≤ s.length
    · have ht : ∀ c ∈ s.take 32, c < 256 ∧ b64Valid c = true :=
        fun c hc => h c (List.take_subset _ _ hc)
      have hall : (s.take 32).all b64Valid = true := by
        rw [List.all_eq_true]
        exact fun c hc => (ht c hc).2
      have hlen32 : (s.take 32).length = 32 := by
        rw [List.length_take]
        omega
      have hd32 : decode32 (s.take 32) = some (decode32Quads (s.take 32)) := by
        unfold decode32
        rw [if_pos hall]
      have hih := ih (s.drop 32) (by rw [List.length_drop]; omega)
        (fun c hc => h c (List.drop_subset _ _ hc))
      rw [decodeGo]
      rw [if_pos h32, hd32]
      show (decodeGo (s.drop 32)).map (fun t => decode32Quads (s.take 32) ++ t) = decodeQuads s
      rw [hih]
      conv_rhs => rw [← List.take_append_drop 32 s]
      rw [decodeQuads_append (s.take 32) (by rw [hlen32]) (decode32Quads (s.take 32))
        (decode32Quads_eq (s.take 32) (by rw [hlen32]) ht) (s.drop 32)]
    · rw [decodeGo]
      rw [if_neg h32]

theorem enc_arg1_lt (a : ℕ) : (a >>> 2) &&& 63 < 64 :=
  lt_of_le_of_lt Nat.and_le_right (by norm_num)

theorem enc_arg2a_lt (a : ℕ) : (a &&& 3) <<< 4 < 64 := by
  rw [Nat.shiftLeft_eq]
  have h : a &&& 3 ≤ 3 := Nat.and_le_right
  omega

theorem enc_arg2_lt (a b : ℕ) : ((a &&& 3) <<< 4) ||| ((b >>> 4) &&& 15) < 64 :=
  lor_lt_64 _ (enc_arg2a_lt a) _ (lt_of_le_of_lt Nat.and_le_right (by norm_num))

theorem enc_arg3a_lt (b : ℕ) : (b &&& 15) <<< 2 < 64 := by
  rw [Nat.shiftLeft_eq]
  have h : b &&& 15 ≤ 15 := Nat.and_le_right
  omega

theorem enc_arg3_lt (b c : ℕ) : ((b &&& 15) <<< 2) ||| ((c >>> 6) &&& 3) < 64 :=
  lor_lt_64 _ (enc_arg3a_lt b) _ (lt_of_le_of_lt Nat.and_le_right (by norm_num))

theorem enc_arg4_lt (c : ℕ) : c &&& 63 < 64 :=
  lt_of_le_of_lt Nat.and_le_right (by norm_num)

theorem encode_valid : ∀ bs : List ℕ, ∀ ch ∈ encode bs, ch < 256 ∧ b64Valid ch = true
  | [], ch, hch => by simp [encode] at hch
  | [a], ch, hch => by
    simp only [encode, List.mem_cons, List.not_mem_nil, or_false] at hch
    rcases hch with rfl | rfl
    · exact ⟨(enc_valid _ (enc_arg1_lt a)).1, (enc_valid _ (enc_arg1_lt a)).2⟩
    · exact ⟨(enc_valid _ (enc_arg2a_lt a)).1, (enc_valid _ (enc_arg2a_lt a)).2⟩
  | [a, b], ch, hch => by
    simp only [encode, List.mem_cons, List.not_mem_nil, or_false] at hch
    rcases hch with rfl | rfl | rfl
    · exact enc_valid _ (enc_arg1_lt a)
    · exact enc_valid _ (enc_arg2_lt a b)
    · exact enc_valid _ (enc_arg3a_lt b)
  | a :: b :: c :: r, ch, hch => by
    simp only [encode, List.mem_cons] at hch
    rcases hch with rfl | rfl | rfl | rfl | hch
    · exact enc_valid _ (enc_arg1_lt a)
    · exact enc_valid _ (enc_arg2_lt a b)
    · exact enc_valid _ (enc_arg3_lt b c)
    · exact enc_valid _ (enc_arg4_lt c)
    · exact encode_valid r ch hch



/-!
### Date-time fractional helper lemmas
-/

theorem inBounds_getD : ∀ (B : List (ℤ × ℤ)) (l : List ℕ), inBounds B l = true →
    ∀ i, i < B.length → i < l.length →
      (B.getD i (0, 0)).1 ≤ sbyte (l.getD i 0) ∧ sbyte (l.getD i 0) ≤ (B.getD i (0, 0)).2
  | b :: bs, c :: cs, h, i, hiB, hil => by
    simp only [inBounds, Bool.and_eq_true, decide_eq_true_eq] at h
    cases i with
    | zero => exact ⟨h.1.1, h.1.2⟩
    | succ n =>
      have hrec := inBounds_getD bs cs h.2 n (by simpa using hiB) (by simpa using hil)
      simpa using hrec
  | [], _, _, i, hiB, _ => by simp at hiB
  | _ :: _, [], _, i, _, hil => by simp at hil

theorem dval_of_digit (c : ℕ) (h : isDigit c = true) : dval c = c - 48 := by
  have hb := isDigit_iff.mp h
  unfold dval
  rw [and15_eq_mod]
  omega

/-- The triplet reduction of the padded 9-digit fraction equals the decimal
value of the 9 digits. -/
theorem nine_digits (l : List ℕ) (h9 : l.length = 9) (hall : l.all isDigit = true) :
    1000000 * (100 * dval (l.getD 0 0) + 10 * dval (l.getD 1 0) + dval (l.getD 2 0))
      + 1000 * (100 * dval (l.getD 3 0) + 10 * dval (l.getD 4 0) + dval (l.getD 5 0))
      + (100 * dval (l.getD 6 0) + 10 * dval (l.getD 7 0) + dval (l.getD 8 0))
    = decVal l := by
  rcases l with _ | ⟨c0, l⟩; · simp at h9
  rcases l with _ | ⟨c1, l⟩; · simp at h9
  rcases l with _ | ⟨c2, l⟩; · simp at h9
  rcases l with _ | ⟨c3, l⟩; · simp at h9
  rcases l with _ | ⟨c4, l⟩; · simp at h9
  rcases l with _ | ⟨c5, l⟩; · simp at h9
  rcases l with _ | ⟨c6, l⟩; · simp at h9
  rcases l with _ | ⟨c7, l⟩; · simp at h9
  rcases l with _ | ⟨c8, l⟩; · simp at h9
  have hnil : l = [] := by
    simp only [List.length_cons] at h9
    exact List.length_eq_zero.mp (by omega)
  subst hnil
  simp only [List.all_cons, List.all_nil, Bool.and_eq_true, and_true] at hall
  obtain ⟨h0, h1, h2, h3, h4, h5, h6, h7, h8⟩ := hall
  simp only [List.getD_cons_zero, List.getD_cons_succ]
  rw [dval_of_digit c0 h0, dval_of_digit c1 h1, dval_of_digit c2 h2, dval_of_digit c3 h3,
    dval_of_digit c4 h4, dval_of_digit c5 h5, dval_of_digit c6 h6, dval_of_digit c7 h7,
    dval_of_digit c8 h8]
  simp only [decVal, List.foldl]
  ring

/-- Positions 15..28 of the fractional-register bounds all lie inside
`[46, 58]`. -/
theorem dtBounds32_mid (i : ℕ) (h15 : 15 ≤ i) (h28 : i ≤ 28) :
    46 ≤ (dtBounds32.getD i (0, 0)).1 ∧ (dtBounds32.getD i (0, 0)).2 ≤ 58 := by
  interval_cases i <;> exact ⟨by decide, by decide⟩



/-!
### Scalar/AVX2 agreement helper lemmas
-/

theorem getD_mem (l : List ℕ) (i : ℕ) (h : i < l.length) : l.getD i 0 ∈ l := by
  rw [List.getD_eq_getElem _ _ h]
  exact List.getElem_mem _

/-- A byte whose signed value the range check pinned inside `[48, 57]` is an
ASCII digit. -/
theorem bounds_digit (B : List (ℤ × ℤ)) (l : List ℕ) (hB : inBounds B l = true)
    (i : ℕ) (hiB : i < B.length) (hil : i < l.length) (hc : l.getD i 0 < 256)
    (hlo : (48 : ℤ) ≤ (B.getD i (0, 0)).1) (hhi : (B.getD i (0, 0)).2 ≤ 57) :
    isDigit (l.getD i 0) = true := by
  have h := inBounds_getD B l hB i hiB hil
  have h1 : (48 : ℤ) ≤ sbyte (l.getD i 0) := le_trans hlo h.1
  have h2 : sbyte (l.getD i 0) ≤ 57 := le_trans h.2 hhi
  unfold sbyte at h1 h2
  simp only [isDigit, Bool.and_eq_true, decide_eq_true_eq]
  by_cases hcc : l.getD i 0 < 128
  · rw [if_pos hcc] at h1 h2
    omega
  · rw [if_neg hcc] at h1 h2
    omega

/-- A byte whose signed bounds are the fixed pair `(v, v)` equals `v`. -/
theorem bounds_fixed (B : List (ℤ × ℤ)) (l : List ℕ) (hB : inBounds B l = true)
    (i : ℕ) (hiB : i < B.length) (hil : i < l.length) (hc : l.getD i 0 < 256)
    (v : ℕ) (hv : v < 128)
    (hlo : (B.getD i (0, 0)).1 = (v : ℤ)) (hhi : (B.getD i (0, 0)).2 = (v : ℤ)) :
    l.getD i 0 = v := by
  have h := inBounds_getD B l hB i hiB hil
  have h1 := h.1
  have h2 := h.2
  rw [hlo] at h1
  rw [hhi] at h2
  unfold sbyte at h1 h2
  by_cases hcc : l.getD i 0 < 128
  · rw [if_pos hcc] at h1 h2
    omega
  · rw [if_neg hcc] at h1 h2
    omega

theorem pair_eq (x y : ℕ) (hx : isDigit x = true) (hy : isDigit y = true) :
    decVal [x, y] = 10 * dval x + dval y := by
  have hx2 := isDigit_iff.mp hx
  have hy2 := isDigit_iff.mp hy
  rw [dval_of_digit x hx, dval_of_digit y hy]
  simp only [decVal, List.foldl]
  omega

theorem quad_year_eq (a b c d : ℕ) (ha : isDigit a = true) (hb : isDigit b = true)
    (hc : isDigit c = true) (hd : isDigit d = true) :
    (decVal [a, b, c, d] : ℤ)
      = ((1000 * dval a + 100 * dval b + 10 * dval c + dval d : ℕ) : ℤ) := by
  have h : decVal [a, b, c, d] = 1000 * dval a + 100 * dval b + 10 * dval c + dval d := by
    have ha2 := isDigit_iff.mp ha
    have hb2 := isDigit_iff.mp hb
    have hc2 := isDigit_iff.mp hc
    have hd2 := isDigit_iff.mp hd
    rw [dval_of_digit a ha, dval_of_digit b hb, dval_of_digit c hc, dval_of_digit d hd]
    simp only [decVal, List.foldl]
    omega
  rw [h]

theorem subrange_four (s : List ℕ) (h : 4 ≤ s.length) :
    subrange s 0 4 = [s.getD 0 0, s.getD 1 0, s.getD 2 0, s.getD 3 0] := by
  rcases s with _ | ⟨a, s⟩; · simp at h
  rcases s with _ | ⟨b, s⟩; · simp at h
  rcases s with _ | ⟨c, s⟩; · simp at h
  rcases s with _ | ⟨d, s⟩; · simp at h
  rfl

/-- On every 10-byte input both date builds accept, they produce the same
output state. -/
theorem dateParse_agree (s : List ℕ) (st : date) (hbs : ∀ c ∈ s, c < 256)
    (hA : (dateParseAvx s st).1 = true) (hS : (dateParseSca s st).1 = true) :
    dateParseAvx s st = dateParseSca s st := by
  have hlen : s.length = 10 := by
    by_contra hne
    unfold dateParseAvx at hA
    rw [if_pos hne] at hA
    simp at hA
  unfold dateParseAvx at hA
  unfold dateParseSca at hS
  unfold dateParseAvx dateParseSca
  rw [if_neg (by omega)] at hA
  rw [if_neg (by omega)] at hS
  rw [if_neg (by omega), if_neg (by omega)]
  have hIB : inBounds dateBounds s = true := by
    by_contra hx
    unfold dateParseSimd at hA
    rw [if_neg hx] at hA
    simp at hA
  have hb0 := bounds_digit dateBounds s hIB 0 (by decide) (by omega)
    (hbs _ (getD_mem s 0 (by omega))) (by decide) (by decide)
  have hb1 := bounds_digit dateBounds s hIB 1 (by decide) (by omega)
    (hbs _ (getD_mem s 1 (by omega))) (by decide) (by decide)
  have hb2 := bounds_digit dateBounds s hIB 2 (by decide) (by omega)
    (hbs _ (getD_mem s 2 (by omega))) (by decide) (by decide)
  have hb3 := bounds_digit dateBounds s hIB 3 (by decide) (by omega)
    (hbs _ (getD_mem s 3 (by omega))) (by decide) (by decide)
  have hb5 := bounds_digit dateBounds s hIB 5 (by decide) (by omega)
    (hbs _ (getD_mem s 5 (by omega))) (by decide) (by decide)
  have hb6 := bounds_digit dateBounds s hIB 6 (by decide) (by omega)
    (hbs _ (getD_mem s 6 (by omega))) (by decide) (by decide)
  have hb8 := bounds_digit dateBounds s hIB 8 (by decide) (by omega)
    (hbs _ (getD_mem s 8 (by omega))) (by decide) (by decide)
  have hb9 := bounds_digit dateBounds s hIB 9 (by decide) (by omega)
    (hbs _ (getD_mem s 9 (by omega))) (by decide) (by decide)
  have f1 : fromCharsI (subrange s 0 4) st.year
      = (true, (decVal [s.getD 0 0, s.getD 1 0, s.getD 2 0, s.getD 3 0] : ℤ)) := by
    rw [subrange_four s (by omega)]
    refine fromCharsI_digits _ _ (by simp) (by simp only [List.all_cons, List.all_nil, Bool.and_eq_true, and_true]; exact ⟨hb0, hb1, hb2, hb3⟩) ?_
    have := decVal_lt [s.getD 0 0, s.getD 1 0, s.getD 2 0, s.getD 3 0]
      (by simp only [List.all_cons, List.all_nil, Bool.and_eq_true, and_true]; exact ⟨hb0, hb1, hb2, hb3⟩)
    simp only [List.length_cons, List.length_nil] at this
    omega
  have f2 : fromCharsU (2 ^ 32) (subrange s 5 7) st.month
      = (true, decVal [s.getD 5 0, s.getD 6 0]) := by
    rw [show subrange s 5 7 = [s.getD 5 0, s.getD 6 0] from by
      simpa using subrange_two s 5 (by omega)]
    refine fromCharsU_digits _ _ _ (by simp)
      (by simp only [List.all_cons, List.all_nil, Bool.and_eq_true, and_true]; exact ⟨hb5, hb6⟩) ?_
    have := decVal_two_digits_lt [s.getD 5 0, s.getD 6 0]
      (by simp only [List.all_cons, List.all_nil, Bool.and_eq_true, and_true]; exact ⟨hb5, hb6⟩) (by simp)
    omega
  have f3 : fromCharsU (2 ^ 32) (subrange s 8 10) st.day
      = (true, decVal [s.getD 8 0, s.getD 9 0]) := by
    rw [show subrange s 8 10 = [s.getD 8 0, s.getD 9 0] from by
      simpa using subrange_two s 8 (by omega)]
    refine fromCharsU_digits _ _ _ (by simp)
      (by simp only [List.all_cons, List.all_nil, Bool.and_eq_true, and_true]; exact ⟨hb8, hb9⟩) ?_
    have := decVal_two_digits_lt [s.getD 8 0, s.getD 9 0]
      (by simp only [List.all_cons, List.all_nil, Bool.and_eq_true, and_true]; exact ⟨hb8, hb9⟩) (by simp)
    omega
  have hm : decVal [s.getD 5 0, s.getD 6 0] ≤ 12 := by
    by_contra hx
    unfold dateParseChars at hS
    rw [f1, f2] at hS
    rw [if_neg (by simp)] at hS
    rw [if_pos (by
      rw [show decide (decVal [s.getD 5 0, s.getD 6 0] ≤ 12) = false from decide_eq_false hx]
      rfl)] at hS
    simp at hS
  have hd : decVal [s.getD 8 0, s.getD 9 0] ≤ 31 := by
    by_contra hx
    unfold dateParseChars at hS
    rw [f1, f2, f3] at hS
    rw [if_neg (by simp)] at hS
    rw [if_neg (by
      rw [show decide (decVal [s.getD 5 0, s.getD 6 0] ≤ 12) = true from decide_eq_true hm]
      simp)] at hS
    simp only [] at hS
    rw [show decide (decVal [s.getD 8 0, s.getD 9 0] ≤ 31) = false from decide_eq_false hx] at hS
    simp at hS
  have hscal : dateParseChars s st
      = (true, { year := (decVal [s.getD 0 0, s.getD 1 0, s.getD 2 0, s.getD 3 0] : ℤ),
                 month := decVal [s.getD 5 0, s.getD 6 0],
                 day := decVal [s.getD 8 0, s.getD 9 0] }) := by
    unfold dateParseChars
    rw [f1, f2, f3]
    rw [if_neg (by simp)]
    rw [if_neg (by
      rw [show decide (decVal [s.getD 5 0, s.getD 6 0] ≤ 12) = true from decide_eq_true hm]
      simp)]
    simp only []
    rw [show decide (decVal [s.getD 8 0, s.getD 9 0] ≤ 31) = true from decide_eq_true hd]
    rfl
  unfold dateParseSimd
  rw [if_pos hIB, hscal]
  simp only [Prod.mk.injEq, date.mk.injEq, true_and]
  refine ⟨?_, ?_, ?_⟩
  · exact (quad_year_eq _ _ _ _ hb0 hb1 hb2 hb3).symm
  · exact (pair_eq _ _ hb5 hb6).symm
  · exact (pair_eq _ _ hb8 hb9).symm



/-- A byte whose signed bounds are the literal pair `(lo, hi)` (with
`0 < lo`, `hi < 128`) lies in `[lo, hi]` as an unsigned byte. -/
theorem bounds_nat (B : List (ℤ × ℤ)) (l : List ℕ) (hB : inBounds B l = true)
    (i : ℕ) (hiB : i < B.length) (hil : i < l.length) (hc : l.getD i 0 < 256)
    (lo hi : ℕ) (hlo0 : 0 < lo) (hhi128 : hi < 128)
    (hlo : (B.getD i (0, 0)).1 = (lo : ℤ)) (hhi : (B.getD i (0, 0)).2 = (hi : ℤ)) :
    lo ≤ l.getD i 0 ∧ l.getD i 0 ≤ hi := by
  have h := inBounds_getD B l hB i hiB hil
  have h1 := h.1
  have h2 := h.2
  rw [hlo] at h1
  rw [hhi] at h2
  unfold sbyte at h1 h2
  by_cases hcc : l.getD i 0 < 128
  · rw [if_pos hcc] at h1 h2
    omega
  · rw [if_neg hcc] at h1 h2
    omega

/-- On every 19-byte input both 19-byte date-time kernels accept, they
produce the same output state. -/
theorem dt19_agree (t : List ℕ) (st : datetime) (hbs : ∀ c ∈ t, c < 256)
    (hlen : t.length = 19)
    (h1 : (dtParseSimd19 t st).1 = true) (h2 : (dtParseChars19 t st).1 = true) :
    dtParseSimd19 t st = dtParseChars19 t st := by
  have hIB : inBounds dtBounds16 t = true := by
    by_contra hx
    unfold dtParseSimd19 at h1
    rw [if_neg hx] at h1
    simp at h1
  have hb0 := bounds_digit dtBounds16 t hIB 0 (by decide) (by omega)
    (hbs _ (getD_mem t 0 (by omega))) (by decide) (by decide)
  have hb1 := bounds_digit dtBounds16 t hIB 1 (by decide) (by omega)
    (hbs _ (getD_mem t 1 (by omega))) (by decide) (by decide)
  have hb2 := bounds_digit dtBounds16 t hIB 2 (by decide) (by omega)
    (hbs _ (getD_mem t 2 (by omega))) (by decide) (by decide)
  have hb3 := bounds_digit dtBounds16 t hIB 3 (by decide) (by omega)
    (hbs _ (getD_mem t 3 (by omega))) (by decide) (by decide)
  have hb5 := bounds_digit dtBounds16 t hIB 5 (by decide) (by omega)
    (hbs _ (getD_mem t 5 (by omega))) (by decide) (by decide)
  have hb6 := bounds_digit dtBounds16 t hIB 6 (by decide) (by omega)
    (hbs _ (getD_mem t 6 (by omega))) (by decide) (by decide)
  have hb8 := bounds_digit dtBounds16 t hIB 8 (by decide) (by omega)
    (hbs _ (getD_mem t 8 (by omega))) (by decide) (by decide)
  have hb9 := bounds_digit dtBounds16 t hIB 9 (by decide) (by omega)
    (hbs _ (getD_mem t 9 (by omega))) (by decide) (by decide)
  have hb11 := bounds_digit dtBounds16 t hIB 11 (by decide) (by omega)
    (hbs _ (getD_mem t 11 (by omega))) (by decide) (by decide)
  have hb12 := bounds_digit dtBounds16 t hIB 12 (by decide) (by omega)
    (hbs _ (getD_mem t 12 (by omega))) (by decide) (by decide)
  have hb14 := bounds_digit dtBounds16 t hIB 14 (by decide) (by omega)
    (hbs _ (getD_mem t 14 (by omega))) (by decide) (by decide)
  have hb15 := bounds_digit dtBounds16 t hIB 15 (by decide) (by omega)
    (hbs _ (getD_mem t 15 (by omega))) (by decide) (by decide)
  have h4 := bounds_fixed dtBounds16 t hIB 4 (by decide) (by omega)
    (hbs _ (getD_mem t 4 (by omega))) 45 (by norm_num) (by decide) (by decide)
  have h7 := bounds_fixed dtBounds16 t hIB 7 (by decide) (by omega)
    (hbs _ (getD_mem t 7 (by omega))) 45 (by norm_num) (by decide) (by decide)
  have h13 := bounds_fixed dtBounds16 t hIB 13 (by decide) (by omega)
    (hbs _ (getD_mem t 13 (by omega))) 58 (by norm_num) (by decide) (by decide)
  have hb14n := bounds_nat dtBounds16 t hIB 14 (by decide) (by omega)
    (hbs _ (getD_mem t 14 (by omega))) 48 53 (by norm_num) (by norm_num) (by decide) (by decide)
  have hb15n := bounds_nat dtBounds16 t hIB 15 (by decide) (by omega)
    (hbs _ (getD_mem t 15 (by omega))) 48 57 (by norm_num) (by norm_num) (by decide) (by decide)
  have f1 : fromCharsI (subrange t 0 4) st.year
      = (true, (decVal [t.getD 0 0, t.getD 1 0, t.getD 2 0, t.getD 3 0] : ℤ)) := by
    rw [subrange_four t (by omega)]
    refine fromCharsI_digits _ _ (by simp)
      (by simp only [List.all_cons, List.all_nil, Bool.and_eq_true, and_true]
          exact ⟨hb0, hb1, hb2, hb3⟩) ?_
    have := decVal_lt [t.getD 0 0, t.getD 1 0, t.getD 2 0, t.getD 3 0]
      (by simp only [List.all_cons, List.all_nil, Bool.and_eq_true, and_true]
          exact ⟨hb0, hb1, hb2, hb3⟩)
    simp only [List.length_cons, List.length_nil] at this
    omega
  have pairU : ∀ (a b : ℕ) (v0 : ℕ), isDigit a = true → isDigit b = true →
      fromCharsU (2 ^ 32) [a, b] v0 = (true, decVal [a, b]) := by
    intro a b v0 ha hb
    refine fromCharsU_digits _ _ _ (by simp)
      (by simp only [List.all_cons, List.all_nil, Bool.and_eq_true, and_true]; exact ⟨ha, hb⟩) ?_
    have := decVal_two_digits_lt [a, b]
      (by simp only [List.all_cons, List.all_nil, Bool.and_eq_true, and_true]; exact ⟨ha, hb⟩)
      (by simp)
    omega
  have f2 : fromCharsU (2 ^ 32) (subrange t 5 7) st.month
      = (true, decVal [t.getD 5 0, t.getD 6 0]) := by
    rw [show subrange t 5 7 = [t.getD 5 0, t.getD 6 0] from by
      simpa using subrange_two t 5 (by omega)]
    exact pairU _ _ _ hb5 hb6
  have f3 : fromCharsU (2 ^ 32) (subrange t 8 10) st.day
      = (true, decVal [t.getD 8 0, t.getD 9 0]) := by
    rw [show subrange t 8 10 = [t.getD 8 0, t.getD 9 0] from by
      simpa using subrange_two t 8 (by omega)]
    exact pairU _ _ _ hb8 hb9
  have f4 : fromCharsU (2 ^ 32) (subrange t 11 13) st.hour
      = (true, decVal [t.getD 11 0, t.getD 12 0]) := by
    rw [show subrange t 11 13 = [t.getD 11 0, t.getD 12 0] from by
      simpa using subrange_two t 11 (by omega)]
    exact pairU _ _ _ hb11 hb12
  have f5 : fromCharsU (2 ^ 32) (subrange t 14 16) st.minute
      = (true, decVal [t.getD 14 0, t.getD 15 0]) := by
    rw [show subrange t 14 16 = [t.getD 14 0, t.getD 15 0] from by
      simpa using subrange_two t 14 (by omega)]
    exact pairU _ _ _ hb14 hb15
  have hmin : decVal [t.getD 14 0, t.getD 15 0] < 60 := by
    rw [pair_eq _ _ hb14 hb15, dval_of_digit _ hb14, dval_of_digit _ hb15]
    omega
  unfold dtParseChars19 at h2 ⊢
  simp only [] at h2
  rw [f1] at h2 ⊢
  rw [if_neg (by simp)] at h2 ⊢
  rw [if_neg (by rw [h4]; simp)] at h2 ⊢
  rw [f2] at h2 ⊢
  have hm12 : decVal [t.getD 5 0, t.getD 6 0] ≤ 12 := by
    by_contra hx
    rw [if_pos (by
      rw [show decide (decVal [t.getD 5 0, t.getD 6 0] ≤ 12) = false from decide_eq_false hx]
      rfl)] at h2
    simp at h2
  rw [if_neg (by
    rw [show decide (decVal [t.getD 5 0, t.getD 6 0] ≤ 12) = true from decide_eq_true hm12]
    simp)] at h2 ⊢
  rw [if_neg (by rw [h7]; simp)] at h2 ⊢
  rw [f3] at h2 ⊢
  have hd31 : decVal [t.getD 8 0, t.getD 9 0] ≤ 31 := by
    by_contra hx
    rw [if_pos (by
      rw [show decide (decVal [t.getD 8 0, t.getD 9 0] ≤ 31) = false from decide_eq_false hx]
      rfl)] at h2
    simp at h2
  rw [if_neg (by
    rw [show decide (decVal [t.getD 8 0, t.getD 9 0] ≤ 31) = true from decide_eq_true hd31]
    simp)] at h2 ⊢
  have h10 : t.getD 10 0 = 84 ∨ t.getD 10 0 = 32 := by
    by_contra hx
    push_neg at hx
    rw [if_pos (by
      rw [show decide (t.getD 10 0 = 84) = false from decide_eq_false hx.1,
        show decide (t.getD 10 0 = 32) = false from decide_eq_false hx.2]
      rfl)] at h2
    simp at h2
  rw [if_neg (by rcases h10 with h | h <;> rw [h] <;> simp)] at h2 ⊢
  rw [f4] at h2 ⊢
  have hh24 : decVal [t.getD 11 0, t.getD 12 0] < 24 := by
    by_contra hx
    rw [if_pos (by
      rw [show decide (decVal [t.getD 11 0, t.getD 12 0] < 24) = false from decide_eq_false hx]
      rfl)] at h2
    simp at h2
  rw [if_neg (by
    rw [show decide (decVal [t.getD 11 0, t.getD 12 0] < 24) = true from decide_eq_true hh24]
    simp)] at h2 ⊢
  rw [if_neg (by rw [h13]; simp)] at h2 ⊢
  rw [f5] at h2 ⊢
  rw [if_neg (by
    rw [show decide (decVal [t.getD 14 0, t.getD 15 0] < 60) = true from decide_eq_true hmin]
    simp)] at h2 ⊢
  have h16 : t.getD 16 0 = 58 := by
    by_contra hx
    rw [if_pos hx] at h2
    simp at h2
  rw [if_neg (by rw [h16]; simp)] at h2 ⊢
  unfold dtParseSimd19
  rw [if_pos hIB]
  simp only [Prod.mk.injEq, datetime.mk.injEq, and_true, true_and]
  refine ⟨?_, ?_, ?_, ?_, ?_⟩
  · rw [quad_year_eq _ _ _ _ hb0 hb1 hb2 hb3]
    push_cast
    ring
  · exact (pair_eq _ _ hb5 hb6).symm
  · exact (pair_eq _ _ hb8 hb9).symm
  · exact (pair_eq _ _ hb11 hb12).symm
  · exact (pair_eq _ _ hb14 hb15).symm



theorem getD_rep48 (n k : ℕ) (h : k < n) : (List.replicate n (48 : ℕ)).getD k 0 = 48 := by
  rw [List.getD_eq_getElem _ _ (by simpa using h)]
  simp


/-- Full evaluation of the scalar 19-byte kernel on an accepted input whose
bytes satisfy the grammar facts. -/
theorem chars19_eval (u : List ℕ) (st : datetime) (hulen : u.length = 19)
    (hb0 : isDigit (u.getD 0 0) = true) (hb1 : isDigit (u.getD 1 0) = true)
    (hb2 : isDigit (u.getD 2 0) = true) (hb3 : isDigit (u.getD 3 0) = true)
    (hb5 : isDigit (u.getD 5 0) = true) (hb6 : isDigit (u.getD 6 0) = true)
    (hb8 : isDigit (u.getD 8 0) = true) (hb9 : isDigit (u.getD 9 0) = true)
    (hb11 : isDigit (u.getD 11 0) = true) (hb12 : isDigit (u.getD 12 0) = true)
    (hb14 : isDigit (u.getD 14 0) = true) (hb15 : isDigit (u.getD 15 0) = true)
    (hb17 : isDigit (u.getD 17 0) = true) (hb18 : isDigit (u.getD 18 0) = true)
    (h4 : u.getD 4 0 = 45) (h7 : u.getD 7 0 = 45)
    (h13 : u.getD 13 0 = 58) (h16 : u.getD 16 0 = 58)
    (hmin : decVal [u.getD 14 0, u.getD 15 0] < 60)
    (hsec : decVal [u.getD 17 0, u.getD 18 0] < 60)
    (hS : (dtParseChars19 u st).1 = true) :
    dtParseChars19 u st
      = (true, { st with
          year := (decVal [u.getD 0 0, u.getD 1 0, u.getD 2 0, u.getD 3 0] : ℤ),
          month := decVal [u.getD 5 0, u.getD 6 0],
          day := decVal [u.getD 8 0, u.getD 9 0],
          hour := decVal [u.getD 11 0, u.getD 12 0],
          minute := decVal [u.getD 14 0, u.getD 15 0],
          second := decVal [u.getD 17 0, u.getD 18 0] }) := by
  have pairU : ∀ (a b : ℕ) (v0 : ℕ), isDigit a = true → isDigit b = true →
      fromCharsU (2 ^ 32) [a, b] v0 = (true, decVal [a, b]) := by
    intro a b v0 ha hb
    refine fromCharsU_digits _ _ _ (by simp)
      (by simp only [List.all_cons, List.all_nil, Bool.and_eq_true, and_true]; exact ⟨ha, hb⟩) ?_
    have := decVal_two_digits_lt [a, b]
      (by simp only [List.all_cons, List.all_nil, Bool.and_eq_true, and_true]; exact ⟨ha, hb⟩)
      (by simp)
    omega
  have f1 : fromCharsI (subrange u 0 4) st.year
      = (true, (decVal [u.getD 0 0, u.getD 1 0, u.getD 2 0, u.getD 3 0] : ℤ)) := by
    rw [subrange_four u (by omega)]
    refine fromCharsI_digits _ _ (by simp)
      (by simp only [List.all_cons, List.all_nil, Bool.and_eq_true, and_true]
          exact ⟨hb0, hb1, hb2, hb3⟩) ?_
    have := decVal_lt [u.getD 0 0, u.getD 1 0, u.getD 2 0, u.getD 3 0]
      (by simp only [List.all_cons, List.all_nil, Bool.and_eq_true, and_true]
          exact ⟨hb0, hb1, hb2, hb3⟩)
    simp only [List.length_cons, List.length_nil] at this
    omega
  have f2 : fromCharsU (2 ^ 32) (subrange u 5 7) st.month
      = (true, decVal [u.getD 5 0, u.getD 6 0]) := by
    rw [show subrange u 5 7 = [u.getD 5 0, u.getD 6 0] from by
      simpa using subrange_two u 5 (by omega)]
    exact pairU _ _ _ hb5 hb6
  have f3 : fromCharsU (2 ^ 32) (subrange u 8 10) st.day
      = (true, decVal [u.getD 8 0, u.getD 9 0]) := by
    rw [show subrange u 8 10 = [u.getD 8 0, u.getD 9 0] from by
      simpa using subrange_two u 8 (by omega)]
    exact pairU _ _ _ hb8 hb9
  have f4 : fromCharsU (2 ^ 32) (subrange u 11 13) st.hour
      = (true, decVal [u.getD 11 0, u.getD 12 0]) := by
    rw [show subrange u 11 13 = [u.getD 11 0, u.getD 12 0] from by
      simpa using subrange_two u 11 (by omega)]
    exact pairU _ _ _ hb11 hb12
  have f5 : fromCharsU (2 ^ 32) (subrange u 14 16) st.minute
      = (true, decVal [u.getD 14 0, u.getD 15 0]) := by
    rw [show subrange u 14 16 = [u.getD 14 0, u.getD 15 0] from by
      simpa using subrange_two u 14 (by omega)]
    exact pairU _ _ _ hb14 hb15
  have f6 : fromCharsU (2 ^ 32) (subrange u 17 19) st.second
      = (true, decVal [u.getD 17 0, u.getD 18 0]) := by
    rw [show subrange u 17 19 = [u.getD 17 0, u.getD 18 0] from by
      simpa using subrange_two u 17 (by omega)]
    exact pairU _ _ _ hb17 hb18
  unfold dtParseChars19 at hS ⊢
  simp only [] at hS ⊢
  rw [f1] at hS ⊢
  rw [if_neg (by simp)] at hS ⊢
  rw [if_neg (by rw [h4]; simp)] at hS ⊢
  rw [f2] at hS ⊢
  have hm12 : decVal [u.getD 5 0, u.getD 6 0] ≤ 12 := by
    by_contra hx
    rw [if_pos (by
      rw [show decide (decVal [u.getD 5 0, u.getD 6 0] ≤ 12) = false from decide_eq_false hx]
      rfl)] at hS
    simp at hS
  rw [if_neg (by
    rw [show decide (decVal [u.getD 5 0, u.getD 6 0] ≤ 12) = true from decide_eq_true hm12]
    simp)] at hS ⊢
  rw [if_neg (by rw [h7]; simp)] at hS ⊢
  rw [f3] at hS ⊢
  have hd31 : decVal [u.getD 8 0, u.getD 9 0] ≤ 31 := by
    by_contra hx
    rw [if_pos (by
      rw [show decide (decVal [u.getD 8 0, u.getD 9 0] ≤ 31) = false from decide_eq_false hx]
      rfl)] at hS
    simp at hS
  rw [if_neg (by
    rw [show decide (decVal [u.getD 8 0, u.getD 9 0] ≤ 31) = true from decide_eq_true hd31]
    simp)] at hS ⊢
  have h10 : u.getD 10 0 = 84 ∨ u.getD 10 0 = 32 := by
    by_contra hx
    push_neg at hx
    rw [if_pos (by
      rw [show decide (u.getD 10 0 = 84) = false from decide_eq_false hx.1,
        show decide (u.getD 10 0 = 32) = false from decide_eq_false hx.2]
      rfl)] at hS
    simp at hS
  rw [if_neg (by rcases h10 with h | h <;> rw [h] <;> simp)] at hS ⊢
  rw [f4] at hS ⊢
  have hh24 : decVal [u.getD 11 0, u.getD 12 0] < 24 := by
    by_contra hx
    rw [if_pos (by
      rw [show decide (decVal [u.getD 11 0, u.getD 12 0] < 24) = false from decide_eq_false hx]
      rfl)] at hS
    simp at hS
  rw [if_neg (by
    rw [show decide (decVal [u.getD 11 0, u.getD 12 0] < 24) = true from decide_eq_true hh24]
    simp)] at hS ⊢
  rw [if_neg (by rw [h13]; simp)] at hS ⊢
  rw [f5] at hS ⊢
  rw [if_neg (by
    rw [show decide (decVal [u.getD 14 0, u.getD 15 0] < 60) = true from decide_eq_true hmin]
    simp)] at hS ⊢
  rw [if_neg (by rw [h16]; simp)] at hS ⊢
  rw [f6] at hS ⊢
  rw [show decide (decVal [u.getD 17 0, u.getD 18 0] < 60) = true from decide_eq_true hsec]
  rfl


/-- On every 20..29-byte input both fractional date-time kernels accept,
they produce the same output state. -/
theorem dtfrac_agree (t : List ℕ) (st : datetime) (hbs : ∀ c ∈ t, c < 256)
    (hlen20 : 20 ≤ t.length) (hlen29 : t.length ≤ 29)
    (h1 : (dtParseSimdFrac t st).1 = true) (h2 : (dtParseCharsFrac t st).1 = true) :
    dtParseSimdFrac t st = dtParseCharsFrac t st := by
  have hbuflen : (t ++ List.replicate (32 - t.length) 48).length = 32 := by
    simp only [List.length_append, List.length_replicate]
    omega
  have hIB : inBounds dtBounds32 (t ++ List.replicate (32 - t.length) 48) = true := by
    by_contra hx
    unfold dtParseSimdFrac at h1
    simp only [] at h1
    rw [if_neg hx] at h1
    simp at h1
  have hbt : ∀ i, i < t.length →
      (t ++ List.replicate (32 - t.length) 48).getD i 0 = t.getD i 0 :=
    fun i h => List.getD_append _ _ _ i h
  have hdig : ∀ i, i < 19 → (48 : ℤ) ≤ (dtBounds32.getD i (0, 0)).1 →
      (dtBounds32.getD i (0, 0)).2 ≤ 57 → isDigit (t.getD i 0) = true := by
    intro i hi hlo hhi
    have h := bounds_digit dtBounds32 (t ++ List.replicate (32 - t.length) 48) hIB i
      (by rw [show dtBounds32.length = 32 from rfl]; omega)
      (by rw [hbuflen]; omega)
      (by rw [hbt i (by omega)]; exact hbs _ (getD_mem t i (by omega)))
      hlo hhi
    rwa [hbt i (by omega)] at h
  have hfix : ∀ i, i < 20 → ∀ v : ℕ, v < 128 →
      (dtBounds32.getD i (0, 0)).1 = (v : ℤ) → (dtBounds32.getD i (0, 0)).2 = (v : ℤ) →
      t.getD i 0 = v := by
    intro i hi v hv hlo hhi
    have h := bounds_fixed dtBounds32 (t ++ List.replicate (32 - t.length) 48) hIB i
      (by rw [show dtBounds32.length = 32 from rfl]; omega)
      (by rw [hbuflen]; omega)
      (by rw [hbt i (by omega)]; exact hbs _ (getD_mem t i (by omega)))
      v hv hlo hhi
    rwa [hbt i (by omega)] at h
  have hb0 := hdig 0 (by norm_num) (by decide) (by decide)
  have hb1 := hdig 1 (by norm_num) (by decide) (by decide)
  have hb2 := hdig 2 (by norm_num) (by decide) (by decide)
  have hb3 := hdig 3 (by norm_num) (by decide) (by decide)
  have hb5 := hdig 5 (by norm_num) (by decide) (by decide)
  have hb6 := hdig 6 (by norm_num) (by decide) (by decide)
  have hb8 := hdig 8 (by norm_num) (by decide) (by decide)
  have hb9 := hdig 9 (by norm_num) (by decide) (by decide)
  have hb11 := hdig 11 (by norm_num) (by decide) (by decide)
  have hb12 := hdig 12 (by norm_num) (by decide) (by decide)
  have hb14 := hdig 14 (by norm_num) (by decide) (by decide)
  have hb15 := hdig 15 (by norm_num) (by decide) (by decide)
  have hb17 := hdig 17 (by norm_num) (by decide) (by decide)
  have hb18 := hdig 18 (by norm_num) (by decide) (by decide)
  have h4 := hfix 4 (by norm_num) 45 (by norm_num) (by decide) (by decide)
  have h7 := hfix 7 (by norm_num) 45 (by norm_num) (by decide) (by decide)
  have h13 := hfix 13 (by norm_num) 58 (by norm_num) (by decide) (by decide)
  have h16 := hfix 16 (by norm_num) 58 (by norm_num) (by decide) (by decide)
  have h19 := hfix 19 (by norm_num) 46 (by norm_num) (by decide) (by decide)
  have hb14n : 48 ≤ t.getD 14 0 ∧ t.getD 14 0 ≤ 53 := by
    have h := bounds_nat dtBounds32 (t ++ List.replicate (32 - t.length) 48) hIB 14
      (by rw [show dtBounds32.length = 32 from rfl]; omega)
      (by rw [hbuflen]; omega)
      (by rw [hbt 14 (by omega)]; exact hbs _ (getD_mem t 14 (by omega)))
      48 53 (by norm_num) (by norm_num) (by decide) (by decide)
    rwa [hbt 14 (by omega)] at h
  have hb17n : 48 ≤ t.getD 17 0 ∧ t.getD 17 0 ≤ 53 := by
    have h := bounds_nat dtBounds32 (t ++ List.replicate (32 - t.length) 48) hIB 17
      (by rw [show dtBounds32.length = 32 from rfl]; omega)
      (by rw [hbuflen]; omega)
      (by rw [hbt 17 (by omega)]; exact hbs _ (getD_mem t 17 (by omega)))
      48 53 (by norm_num) (by norm_num) (by decide) (by decide)
    rwa [hbt 17 (by omega)] at h
  have hu : ∀ i, i < 19 → (t.take 19).getD i 0 = t.getD i 0 :=
    fun i h => getD_take_lt t 19 i h
  have hulen : (t.take 19).length = 19 := by
    simp only [List.length_take]
    omega
  have hub0 : isDigit ((t.take 19).getD 0 0) = true := by rw [hu 0 (by norm_num)]; exact hb0
  have hub1 : isDigit ((t.take 19).getD 1 0) = true := by rw [hu 1 (by norm_num)]; exact hb1
  have hub2 : isDigit ((t.take 19).getD 2 0) = true := by rw [hu 2 (by norm_num)]; exact hb2
  have hub3 : isDigit ((t.take 19).getD 3 0) = true := by rw [hu 3 (by norm_num)]; exact hb3
  have hub5 : isDigit ((t.take 19).getD 5 0) = true := by rw [hu 5 (by norm_num)]; exact hb5
  have hub6 : isDigit ((t.take 19).getD 6 0) = true := by rw [hu 6 (by norm_num)]; exact hb6
  have hub8 : isDigit ((t.take 19).getD 8 0) = true := by rw [hu 8 (by norm_num)]; exact hb8
  have hub9 : isDigit ((t.take 19).getD 9 0) = true := by rw [hu 9 (by norm_num)]; exact hb9
  have hub11 : isDigit ((t.take 19).getD 11 0) = true := by rw [hu 11 (by norm_num)]; exact hb11
  have hub12 : isDigit ((t.take 19).getD 12 0) = true := by rw [hu 12 (by norm_num)]; exact hb12
  have hub14 : isDigit ((t.take 19).getD 14 0) = true := by rw [hu 14 (by norm_num)]; exact hb14
  have hub15 : isDigit ((t.take 19).getD 15 0) = true := by rw [hu 15 (by norm_num)]; exact hb15
  have hub17 : isDigit ((t.take 19).getD 17 0) = true := by rw [hu 17 (by norm_num)]; exact hb17
  have hub18 : isDigit ((t.take 19).getD 18 0) = true := by rw [hu 18 (by norm_num)]; exact hb18
  have hu4 : (t.take 19).getD 4 0 = 45 := by rw [hu 4 (by norm_num)]; exact h4
  have hu7 : (t.take 19).getD 7 0 = 45 := by rw [hu 7 (by norm_num)]; exact h7
  have hu13 : (t.take 19).getD 13 0 = 58 := by rw [hu 13 (by norm_num)]; exact h13
  have hu16 : (t.take 19).getD 16 0 = 58 := by rw [hu 16 (by norm_num)]; exact h16
  have hmin : decVal [t.getD 14 0, t.getD 15 0] < 60 := by
    rw [pair_eq _ _ hb14 hb15, dval_of_digit _ hb14, dval_of_digit _ hb15]
    have := isDigit_iff.mp hb15
    omega
  have hsec : decVal [t.getD 17 0, t.getD 18 0] < 60 := by
    rw [pair_eq _ _ hb17 hb18, dval_of_digit _ hb17, dval_of_digit _ hb18]
    have := isDigit_iff.mp hb18
    omega
  have humin : decVal [(t.take 19).getD 14 0, (t.take 19).getD 15 0] < 60 := by
    rw [hu 14 (by norm_num), hu 15 (by norm_num)]
    exact hmin
  have husec : decVal [(t.take 19).getD 17 0, (t.take 19).getD 18 0] < 60 := by
    rw [hu 17 (by norm_num), hu 18 (by norm_num)]
    exact hsec
  have hSch : (dtParseChars19 (t.take 19) st).1 = true := by
    by_contra hx
    have hxf : (dtParseChars19 (t.take 19) st).1 = false := by
      cases hxx : (dtParseChars19 (t.take 19) st).1
      · rfl
      · exact absurd hxx hx
    unfold dtParseCharsFrac at h2
    simp only [] at h2
    rw [hxf] at h2
    simp at h2
  have hch := chars19_eval (t.take 19) st hulen hub0 hub1 hub2 hub3 hub5 hub6 hub8 hub9
    hub11 hub12 hub14 hub15 hub17 hub18 hu4 hu7 hu13 hu16 humin husec hSch
  rw [hu 0 (by norm_num), hu 1 (by norm_num), hu 2 (by norm_num), hu 3 (by norm_num),
    hu 5 (by norm_num), hu 6 (by norm_num), hu 8 (by norm_num), hu 9 (by norm_num),
    hu 11 (by norm_num), hu 12 (by norm_num), hu 14 (by norm_num), hu 15 (by norm_num),
    hu 17 (by norm_num), hu 18 (by norm_num)] at hch
  unfold dtParseCharsFrac at h2 ⊢
  simp only [] at h2 ⊢
  rw [hch] at h2 ⊢
  rw [if_neg (by simp)] at h2 ⊢
  rw [if_neg (by rw [h19]; simp)] at h2 ⊢
  by_cases hd0 : t.length = 20
  · have hnil : t.drop 20 = [] := List.drop_eq_nil_of_le (by omega)
    rw [hnil] at h2
    simp [dtParseFractionalPart, fromCharsU, digitSpan] at h2
  · have hge : 21 ≤ t.length := by omega
    have haux : ∀ j, j < 9 → ((48 : ℤ) ≤ (dtBounds32.getD (20 + j) (0, 0)).1
        ∧ (dtBounds32.getD (20 + j) (0, 0)).2 ≤ 57) := by
      intro j hj
      interval_cases j <;> exact ⟨by decide, by decide⟩
    have hdall : (t.drop 20).all isDigit = true := by
      rw [List.all_eq_true]
      intro c hc
      obtain ⟨j, hj, rfl⟩ := List.mem_iff_getElem.mp hc
      have hjlen : j < t.length - 20 := by simpa using hj
      have hd := bounds_digit dtBounds32 (t ++ List.replicate (32 - t.length) 48) hIB (20 + j)
        (by rw [show dtBounds32.length = 32 from rfl]; omega)
        (by rw [hbuflen]; omega)
        (by rw [hbt (20 + j) (by omega)]; exact hbs _ (getD_mem t (20 + j) (by omega)))
        (haux j (by omega)).1 (haux j (by omega)).2
      rw [hbt (20 + j) (by omega)] at hd
      have he : (t.drop 20)[j] = t.getD (20 + j) 0 := by
        rw [List.getElem_drop]
        exact (List.getD_eq_getElem t 0 (by omega)).symm
      rw [he]
      exact hd
    have hfc : fromCharsU (2 ^ 64) (t.drop 20) 0 = (true, decVal (t.drop 20)) := by
      refine fromCharsU_digits _ _ _ ?_ hdall ?_
      · intro hn
        have := congrArg List.length hn
        simp at this
        omega
      · calc decVal (t.drop 20) < 10 ^ (t.drop 20).length := decVal_lt _ hdall
          _ ≤ 10 ^ 9 := Nat.pow_le_pow_right (by norm_num) (by simp; omega)
          _ < 2 ^ 64 := by norm_num
    unfold dtParseFractionalPart at h2 ⊢
    simp only [] at h2 ⊢
    rw [hfc] at h2 ⊢
    rw [if_neg (by simp)] at h2 ⊢
    unfold dtParseSimdFrac
    simp only []
    rw [if_pos hIB]
    simp only [Prod.mk.injEq, datetime.mk.injEq, and_true, true_and]
    have hpos : ∀ i j : ℕ, i = 20 + j → j < 9 →
        (t ++ List.replicate (32 - t.length) 48).getD i 0
          = ((t.drop 20) ++ List.replicate (9 - (t.length - 20)) 48).getD j 0 := by
      intro i j hij hj
      subst hij
      by_cases hc : 20 + j < t.length
      · rw [List.getD_append _ _ _ _ hc,
          List.getD_append _ _ _ _ (by simp only [List.length_drop]; omega), getD_drop_add]
      · rw [List.getD_append_right _ _ _ _ (by omega),
          List.getD_append_right _ _ _ _ (by simp only [List.length_drop]; omega)]
        rw [getD_rep48 _ _ (by omega)]
        rw [getD_rep48 _ _ (by simp only [List.length_drop]; omega)]
    have e20 := hpos 20 0 (by norm_num) (by norm_num)
    have e21 := hpos 21 1 (by norm_num) (by norm_num)
    have e22 := hpos 22 2 (by norm_num) (by norm_num)
    have e23 := hpos 23 3 (by norm_num) (by norm_num)
    have e24 := hpos 24 4 (by norm_num) (by norm_num)
    have e25 := hpos 25 5 (by norm_num) (by norm_num)
    have e26 := hpos 26 6 (by norm_num) (by norm_num)
    have e27 := hpos 27 7 (by norm_num) (by norm_num)
    have e28 := hpos 28 8 (by norm_num) (by norm_num)
    have hllen : ((t.drop 20) ++ List.replicate (9 - (t.length - 20)) 48).length = 9 := by
      simp only [List.length_append, List.length_drop, List.length_replicate]
      omega
    have hldig : ((t.drop 20) ++ List.replicate (9 - (t.length - 20)) 48).all isDigit = true := by
      rw [List.all_append, hdall]
      simp only [Bool.true_and, List.all_eq_true]
      intro c hc
      rw [List.eq_of_mem_replicate hc]
      decide
    refine ⟨?_, ?_, ?_, ?_, ?_, ?_, ?_⟩
    · rw [hbt 0 (by omega), hbt 1 (by omega), hbt 2 (by omega), hbt 3 (by omega),
        quad_year_eq _ _ _ _ hb0 hb1 hb2 hb3]
      push_cast
      ring
    · rw [hbt 5 (by omega), hbt 6 (by omega)]
      exact (pair_eq _ _ hb5 hb6).symm
    · rw [hbt 8 (by omega), hbt 9 (by omega)]
      exact (pair_eq _ _ hb8 hb9).symm
    · rw [hbt 11 (by omega), hbt 12 (by omega)]
      exact (pair_eq _ _ hb11 hb12).symm
    · rw [hbt 14 (by omega), hbt 15 (by omega)]
      exact (pair_eq _ _ hb14 hb15).symm
    · rw [hbt 17 (by omega), hbt 18 (by omega)]
      exact (pair_eq _ _ hb17 hb18).symm
    · rw [e20, e21, e22, e23, e24, e25, e26, e27, e28]
      rw [nine_digits _ hllen hldig, decVal_append, decVal_replicate48, List.length_replicate]
      simp only [List.length_drop]
      ring



/-- The two build variants of `parse_naive_date_time` agree on every input
both accept. -/
theorem dtNaive_agree (t : List ℕ) (st : datetime) (hbs : ∀ c ∈ t, c < 256)
    (h1 : (dtNaiveAvx t st).1 = true) (h2 : (dtNaiveSca t st).1 = true) :
    dtNaiveAvx t st = dtNaiveSca t st := by
  unfold dtNaiveAvx at h1 ⊢
  unfold dtNaiveSca at h2 ⊢
  by_cases hc1 : (decide (t.length > 29) || decide (t.length < 19)) = true
  · rw [if_pos hc1] at h1
    simp at h1
  · have hlb : 19 ≤ t.length ∧ t.length ≤ 29 := by
      simp only [Bool.or_eq_true, decide_eq_true_eq] at hc1
      push_neg at hc1
      omega
    rw [if_neg hc1] at h1
    rw [if_neg hc1] at h2
    rw [if_neg hc1, if_neg hc1]
    by_cases hc2 : t.length > 19
    · rw [if_pos hc2] at h1
      rw [if_pos hc2] at h2
      rw [if_pos hc2, if_pos hc2]
      exact dtfrac_agree t st hbs (by omega) hlb.2 h1 h2
    · rw [if_neg hc2] at h1
      rw [if_neg hc2] at h2
      rw [if_neg hc2, if_neg hc2]
      exact dt19_agree t st hbs (by omega) h1 h2

/-- The shared `datetime::parse` wrapper maps agreeing naive kernels to
agreeing parses. -/
theorem dtWrapper_agree (n1 n2 : List ℕ → datetime → Bool × datetime)
    (s : List ℕ) (st : datetime) (hbs : ∀ c ∈ s, c < 256)
    (hn : ∀ u : List ℕ, (∀ c ∈ u, c < 256) →
      (n1 u st).1 = true → (n2 u st).1 = true → n1 u st = n2 u st)
    (h1 : (dtWrapper n1 s st).1 = true) (h2 : (dtWrapper n2 s st).1 = true) :
    dtWrapper n1 s st = dtWrapper n2 s st := by
  unfold dtWrapper at h1 h2 ⊢
  simp only [] at h1 h2 ⊢
  by_cases hc1 : (decide (s.length < 19) || decide (s.length > 35)) = true
  · rw [if_pos hc1] at h1
    simp at h1
  · rw [if_neg hc1] at h1
    rw [if_neg hc1] at h2
    rw [if_neg hc1, if_neg hc1]
    by_cases hz : s.getLast? = some 90
    · rw [if_pos hz] at h1
      rw [if_pos hz] at h2
      rw [if_pos hz, if_pos hz]
      have hs1 : (n1 (s.take (s.length - 1)) st).1 = true := by
        by_contra hx
        have hxf : (n1 (s.take (s.length - 1)) st).1 = false := by
          cases hxx : (n1 (s.take (s.length - 1)) st).1
          · rfl
          · exact absurd hxx hx
        rw [hxf] at h1
        simp at h1
      have hs2 : (n2 (s.take (s.length - 1)) st).1 = true := by
        by_contra hx
        have hxf : (n2 (s.take (s.length - 1)) st).1 = false := by
          cases hxx : (n2 (s.take (s.length - 1)) st).1
          · rfl
          · exact absurd hxx hx
        rw [hxf] at h2
        simp at h2
      rw [hn _ (fun c hc => hbs c (List.take_subset _ _ hc)) hs1 hs2]
    · rw [if_neg hz] at h1
      rw [if_neg hz] at h2
      rw [if_neg hz, if_neg hz]
      by_cases hsg : (decide (s.getD (s.length - 6) 0 = 43)
          || decide (s.getD (s.length - 6) 0 = 45)) = true
      · rw [if_pos hsg] at h1
        rw [if_pos hsg] at h2
        rw [if_pos hsg, if_pos hsg]
        have hs1 : (n1 (s.take (s.length - 6)) st).1 = true := by
          by_contra hx
          have hxf : (n1 (s.take (s.length - 6)) st).1 = false := by
            cases hxx : (n1 (s.take (s.length - 6)) st).1
            · rfl
            · exact absurd hxx hx
          rw [hxf] at h1
          simp at h1
        have hs2 : (n2 (s.take (s.length - 6)) st).1 = true := by
          by_contra hx
          have hxf : (n2 (s.take (s.length - 6)) st).1 = false := by
            cases hxx : (n2 (s.take (s.length - 6)) st).1
            · rfl
            · exact absurd hxx hx
          rw [hxf] at h2
          simp at h2
        rw [hn _ (fun c hc => hbs c (List.take_subset _ _ hc)) hs1 hs2]
      · rw [if_neg hsg] at h1
        rw [if_neg hsg] at h2
        rw [if_neg hsg, if_neg hsg]
        by_cases hu : s.drop (s.length - 4) = [32, 85, 84, 67]
        · rw [if_pos hu] at h1
          rw [if_pos hu] at h2
          rw [if_pos hu, if_pos hu]
          have hs1 : (n1 (s.take (s.length - 4)) st).1 = true := by
            by_contra hx
            have hxf : (n1 (s.take (s.length - 4)) st).1 = false := by
              cases hxx : (n1 (s.take (s.length - 4)) st).1
              · rfl
              · exact absurd hxx hx
            rw [hxf] at h1
            simp at h1
          have hs2 : (n2 (s.take (s.length - 4)) st).1 = true := by
            by_contra hx
            have hxf : (n2 (s.take (s.length - 4)) st).1 = false := by
              cases hxx : (n2 (s.take (s.length - 4)) st).1
              · rfl
              · exact absurd hxx hx
            rw [hxf] at h2
            simp at h2
          rw [hn _ (fun c hc => hbs c (List.take_subset _ _ hc)) hs1 hs2]
        · rw [if_neg hu] at h1
          rw [if_neg hu] at h2
          rw [if_neg hu, if_neg hu]
          have hs1 : (n1 s st).1 = true := by
            by_contra hx
            have hxf : (n1 s st).1 = false := by
              cases hxx : (n1 s st).1
              · rfl
              · exact absurd hxx hx
            rw [hxf] at h1
            simp at h1
          have hs2 : (n2 s st).1 = true := by
            by_contra hx
            have hxf : (n2 s st).1 = false := by
              cases hxx : (n2 s st).1
              · rfl
              · exact absurd hxx hx
            rw [hxf] at h2
            simp at h2
          rw [hn _ hbs hs1 hs2]


/-!
## Claims
-/

/-- Claim C5 (amended): a time-zone offset parse succeeds only if the input
is exactly 6 bytes, the first byte is `'+'` or `'-'`, and the minute
component is below 60; every accepted offset satisfies
`|minutes()| ≤ 5999` (the hour field is any two-digit number, so values up
to `60*99+59` are accepted — the bound 1439 claimed by the specification
does not hold). -/
theorem C5_tzoffset_bounds (s : List ℕ) (v0 : ℤ)
    (h : (tzParse s v0).1 = true) :
    s.length = 6 ∧ (s.getD 0 0 = 43 ∨ s.getD 0 0 = 45) ∧
      decVal (subrange s 4 6) < 60 ∧ (tzParse s v0).2.natAbs ≤ 5999 := by
  simp only [tzParse] at h ⊢
  split_ifs at h ⊢ with hc1 hc2 hc3 hc4 h43 h45 h45b
  all_goals try exact (Bool.false_ne_true h).elim
  all_goals try omega
  all_goals
    replace hc2 : (fromCharsU (2 ^ 32) (subrange s 1 3) 0).1 = true := by simpa using hc2
    replace hc4 : (fromCharsU (2 ^ 32) (subrange s 4 6) 0).1 = true := by simpa using hc4
    push_neg at hc1
    simp only [Bool.and_eq_true, decide_eq_true_eq] at h
    obtain ⟨-, hd1, -, hv1⟩ := fromCharsU_success hc2
    obtain ⟨-, hd3, -, hv3⟩ := fromCharsU_success hc4
    have hh99 : (fromCharsU (2 ^ 32) (subrange s 1 3) 0).2 < 100 := by
      rw [hv1]
      exact decVal_two_digits_lt _ hd1 (by simpa using subrange_length s 1 3)
    have hm60 : decVal (subrange s 4 6) < 60 := by rw [← hv3]; exact h.2
    have hm60' := h.2
    have hsign : s.getD 0 0 = 43 ∨ s.getD 0 0 = 45 := by omega
    refine ⟨hc1, hsign, hm60, ?_⟩
    dsimp only
    omega

/-- Witness for C5 at the concrete offset `"+01:30"`. -/
theorem C5_tzoffset_bounds_witness :
    (strBytes "+01:30").length = 6 ∧
      ((strBytes "+01:30").getD 0 0 = 43 ∨ (strBytes "+01:30").getD 0 0 = 45) ∧
      decVal (subrange (strBytes "+01:30") 4 6) < 60 ∧
      (tzParse (strBytes "+01:30") 0).2.natAbs ≤ 5999 :=
  C5_tzoffset_bounds (strBytes "+01:30") 0 (by decide)

/-- Counterexample for C5 as stated: `"+99:00"` is accepted and yields an
offset of 5940 minutes, far above the claimed bound `|minutes()| ≤ 1439`. -/
theorem C5_counterexample :
    tzParse (strBytes "+99:00") 0 = (true, 5940) ∧ ¬((5940 : ℤ).natAbs ≤ 1439) := by
  constructor
  · decide
  · decide

/-- Claim C6 (amended): the hexadecimal-integer, UUID and (AVX2) date
parsers leave the output object unchanged on every failing parse; the
time-zone offset parser (and likewise the decimal and date-time parsers)
does not — see the counterexample. -/
theorem C6_failure_state :
    (∀ (s : List ℕ) (v0 : ℕ), (hexParse s v0).1 = false → (hexParse s v0).2 = v0) ∧
    (∀ (s : List ℕ) (id0 : List ℕ), (uuidParse s id0).1 = false → (uuidParse s id0).2 = id0) ∧
    (∀ (s : List ℕ) (st : date), (dateParseAvx s st).1 = false → (dateParseAvx s st).2 = st) := by
  refine ⟨?_, ?_, ?_⟩
  · intro s v0 h
    simp only [hexParse, hexParseString, hexParseHexa] at h ⊢
    split_ifs at h ⊢ <;> first | rfl | simp at h
  · intro s id0 h
    simp only [uuidParse, uuidParseCore] at h ⊢
    split_ifs at h ⊢ <;> first | rfl | simp at h
  · intro s st h
    simp only [dateParseAvx, dateParseSimd] at h ⊢
    split_ifs at h ⊢ <;> first | rfl | simp at h

/-- Witness for C6 on concrete failing inputs of each covered parser. -/
theorem C6_failure_state_witness :
    (hexParse (strBytes "xyz") 7).2 = 7 ∧
      (uuidParse (strBytes "n81d4fae7dec11d0a76500a0c91e6bf6") [1, 2]).2 = [1, 2] ∧
      (dateParseAvx (strBytes "YYYY-10-24") { year := 5 }).2 = { year := 5 } :=
  ⟨C6_failure_state.1 (strBytes "xyz") 7 (by decide),
   C6_failure_state.2.1 (strBytes "n81d4fae7dec11d0a76500a0c91e6bf6") [1, 2] (by decide),
   C6_failure_state.2.2 (strBytes "YYYY-10-24") { year := 5 } (by decide)⟩

/-- Counterexample for C6 as stated: `tzoffset::parse` on `"+01:99"` fails
(minute 99 ≥ 60) but commits the partially computed `_value = 159` to the
output, so a default-initialized object does not keep its value 0. -/
theorem C6_counterexample :
    tzParse (strBytes "+01:99") 0 = (false, 159) ∧ (159 : ℤ) ≠ 0 := by
  constructor
  · decide
  · decide

/-- Claim C9: on the `UNSET` sentinel, `as_datetime()` returns the
zero-valued `datetime` as the specification demands, but `as_date()` does
not check `undefined()`: `as_time()` returns the error value −1, `gmtime`
happily converts −1 to 1969-12-31 23:59:59 UTC, and `as_date()` therefore
returns the date 1969-12-31 instead of the degenerate zero date. -/
theorem C9_sentinel_accessors :
    microAsDate microUNSET = { year := 1969, month := 12, day := 31 } ∧
      microAsDate microUNSET ≠ ({} : date) ∧
      microAsDatetime microUNSET = ({} : datetime) := by
  refine ⟨by decide, by decide, by decide⟩

/-- Counterexample for C1 as stated: the AVX2 date kernel accepts
`"2023-19-01"` (its per-position bounds allow a month tens digit of 1 and
any units digit), while the scalar fallback rejects it (`month ≤ 12`). -/
theorem C1_counterexample :
    (dateParseAvx (strBytes "2023-19-01") {}).1 = true ∧
      (dateParseSca (strBytes "2023-19-01") {}).1 = false := by
  constructor
  · decide
  · decide

/-- Counterexample for C2 as stated: the empty string is accepted by the
decimal parser (the SIMD body sees an all-`'0'` padded register) and yields
the value 0, while the claim says the empty string always fails. -/
theorem C2_counterexample :
    decParse (strBytes "") 0 = (true, 0) ∧ (strBytes "").length = 0 := by
  constructor
  · decide
  · decide

/-- Counterexample for C3 as stated: `"0X1F"` (uppercase `X`) is rejected —
the prefix test only strips lowercase `"0x"`, and `X` is not a valid hex
digit — while the claim says `0X`-prefixed spellings succeed. -/
theorem C3_counterexample :
    (hexParse (strBytes "0X1F") 0).1 = false := by
  decide

/-- Claim C2 (amended): the decimal parser accepts exactly the (possibly
empty) strings of ASCII digits whose last `max(n-16, 0)` digits denote a
value below `2^64`, and on success the stored value is the denoted integer
reduced mod `2^64` (exact whenever the integer fits, in particular for all
1..20-digit values up to `u64` max).  Signed, `0x`-prefixed and otherwise
non-digit strings still always fail, but — contrary to the claim — the
empty string succeeds with value 0, and 21-or-more-digit strings succeed
with a silently wrapped value whenever the digits past position 16 fit in
64 bits (the scalar extension path multiplies without an overflow check). -/
theorem C2_decimal_parse (s : List ℕ) (v0 : ℕ) (hb : ∀ c ∈ s, c < 256) :
    ((decParse s v0).1 = true ↔
      s.all isDigit = true ∧ decVal (List.drop 16 s) < 2 ^ 64) ∧
    ((decParse s v0).1 = true → (decParse s v0).2 = decVal s % 2 ^ 64) := by
  by_cases hlen : s.length > 16
  case neg =>
    have h16 : s.length ≤ 16 := by omega
    unfold decParse
    rw [if_neg hlen, decParseSimd_eq s v0 hb h16]
    have hdrop : List.drop 16 s = [] := List.drop_eq_nil_of_le (by omega)
    by_cases hd : s.all isDigit = true
    · rw [if_pos hd]
      have hv : decVal s < 2 ^ 64 := by
        have h1 := decVal_lt s hd
        have h2 : 10 ^ s.length ≤ 10 ^ 16 := Nat.pow_le_pow_right (by norm_num) h16
        have h3 : (10 : ℕ) ^ 16 < 2 ^ 64 := by norm_num
        omega
      refine ⟨⟨fun _ => ⟨hd, ?_⟩, fun _ => rfl⟩, fun _ => (Nat.mod_eq_of_lt hv).symm⟩
      rw [hdrop]
      show decVal [] < 2 ^ 64
      norm_num [decVal]
    · rw [if_neg hd]
      refine ⟨⟨fun hc => ?_, fun hc => absurd hc.1 hd⟩, fun hc => ?_⟩
      · simp at hc
      · simp at hc
  case pos =>
    unfold decParse
    rw [if_pos hlen]
    have hbt : ∀ c ∈ s.take 16, c < 256 := fun c hc => hb c (List.mem_of_mem_take hc)
    have hlt : (s.take 16).length ≤ 16 := by simp
    rw [decParseSimd_eq _ v0 hbt hlt]
    have hall : s.all isDigit = ((s.take 16).all isDigit && (s.drop 16).all isDigit) := by
      conv_lhs => rw [← List.take_append_drop 16 s]
      rw [List.all_append]
    have hdlen : (s.drop 16).length = s.length - 16 := List.length_drop 16 s
    have hdne : s.drop 16 ≠ [] := by
      intro hc
      have := congrArg List.length hc
      simp only [hdlen, List.length_nil] at this
      omega
    have hvs : decVal s = decVal (s.take 16) * 10 ^ (s.length - 16) + decVal (s.drop 16) := by
      conv_lhs => rw [← List.take_append_drop 16 s]
      rw [decVal_append, hdlen]
    by_cases hd1 : (s.take 16).all isDigit = true
    · rw [if_pos hd1]
      simp only [Bool.not_true, Bool.false_eq_true, if_false]
      by_cases hd2 : (s.drop 16).all isDigit = true
      · by_cases hv2 : decVal (s.drop 16) < 2 ^ 64
        · rw [fromCharsU_digits _ _ _ hdne hd2 hv2]
          simp only [Bool.not_true, Bool.false_eq_true, if_false]
          refine ⟨⟨fun _ => ⟨by simp [hall, hd1, hd2], hv2⟩, fun _ => by trivial⟩, fun _ => ?_⟩
          show (decVal (List.drop 16 s) + decVal (List.take 16 s) * 10 ^ (s.length - 16) % 2 ^ 64) % 2 ^ 64
              = decVal s % 2 ^ 64
          rw [Nat.add_mod_mod, Nat.add_comm, ← hvs]
        · have hfail : (fromCharsU (2 ^ 64) (s.drop 16) (decVal (s.take 16))).1 = false := by
            by_contra hc
            rw [Bool.not_eq_false] at hc
            obtain ⟨-, -, hlt2, -⟩ := fromCharsU_success hc
            exact hv2 hlt2
          rw [hfail]
          simp only [Bool.not_false, if_true]
          refine ⟨⟨fun hc => ?_, fun hc => absurd hc.2 hv2⟩, fun hc => ?_⟩
          · simp at hc
          · simp at hc
      · have hfail : (fromCharsU (2 ^ 64) (s.drop 16) (decVal (s.take 16))).1 = false := by
          by_contra hc
          rw [Bool.not_eq_false] at hc
          obtain ⟨-, hall2, -, -⟩ := fromCharsU_success hc
          exact hd2 hall2
        rw [hfail]
        simp only [Bool.not_false, if_true]
        refine ⟨⟨fun hc => ?_, fun hc => ?_⟩, fun hc => ?_⟩
        · simp at hc
        · rw [hall, Bool.and_eq_true] at hc
          exact absurd hc.1.2 hd2
        · simp at hc
    · rw [if_neg hd1]
      simp only [Bool.not_false, if_true]
      refine ⟨⟨fun hc => ?_, fun hc => ?_⟩, fun hc => ?_⟩
      · simp at hc
      · rw [hall, Bool.and_eq_true] at hc
        exact absurd hc.1.1 hd1
      · simp at hc

/-- Witness for C2 at the 20-digit input `"12345678123456781234"`. -/
theorem C2_decimal_parse_witness :
    ((decParse (strBytes "12345678123456781234") 0).1 = true ↔
      (strBytes "12345678123456781234").all isDigit = true ∧
        decVal (List.drop 16 (strBytes "12345678123456781234")) < 2 ^ 64) ∧
    ((decParse (strBytes "12345678123456781234") 0).1 = true →
      (decParse (strBytes "12345678123456781234") 0).2
        = decVal (strBytes "12345678123456781234") % 2 ^ 64) :=
  C2_decimal_parse (strBytes "12345678123456781234") 0 (by decide)

/-- Claim C3 (amended): every string of 1..16 hexadecimal digits parses to
its (correct) 64-bit value, bare or with a lowercase `0x` prefix, and
case-variant spellings decode identically; strings with 17 or more digits
after prefix stripping fail.  Contrary to the claim, an uppercase `0X`
prefix is **not** accepted: the prefix test compares only against lowercase
`"0x"`, and `X` itself is not a hex digit, so every `0X`-prefixed input
fails. -/
theorem C3_hexadecimal_parse :
    (∀ (h1 h2 : List ℕ) (v0 : ℕ),
        1 ≤ h1.length → h1.length ≤ 16 →
        (∀ c ∈ h1, c < 256) → (∀ c ∈ h2, c < 256) →
        h1.all hexDigitChar = true → h2.all hexDigitChar = true →
        h1.map (fun c => c ||| 32) = h2.map (fun c => c ||| 32) →
        hexParse h1 v0 = (true, hexVal h1) ∧
        hexParse (48 :: 120 :: h1) v0 = (true, hexVal h1) ∧
        hexVal h2 = hexVal h1 ∧ hexVal h1 < 2 ^ 64) ∧
    (∀ (s : List ℕ) (v0 : ℕ), 2 ≤ s.length → s.getD 0 0 = 48 → s.getD 1 0 = 88 →
        (hexParse s v0).1 = false) ∧
    (∀ (h : List ℕ) (v0 : ℕ), 17 ≤ h.length → h.all hexDigitChar = true →
        (hexParse h v0).1 = false ∧ (hexParse (48 :: 120 :: h) v0).1 = false) := by
  refine ⟨?_, ?_, ?_⟩
  · intro h1 h2 v0 hne h16 hb1 hb2 hd1 hd2 hm
    obtain ⟨e1, e2⟩ := hexParse_strip h1 v0 hne hd1
    have hps : hexParseString h1 v0 = (true, hexVal h1) := by
      unfold hexParseString
      rw [if_neg (by omega), hexParseHexa_eq h1 v0 hb1 h16, if_pos hd1]
    have hlt : hexVal h1 < 2 ^ 64 := by
      have := hexVal_lt h1 hb1 hd1
      have h2' : (16 : ℕ) ^ h1.length ≤ 16 ^ 16 := Nat.pow_le_pow_right (by norm_num) h16
      have h3' : (16 : ℕ) ^ 16 = 2 ^ 64 := by norm_num
      omega
    exact ⟨e1.trans hps, e2.trans hps,
      hexVal_or32_eq h2 h1 hb2 hb1 hd2 hd1 hm.symm, hlt⟩
  · intro s v0 hl2 h0 h1
    have hlt : (1 : ℕ) < s.length := by omega
    have hmem : (88 : ℕ) ∈ s := by
      rw [← h1, List.getD_eq_getElem s 0 hlt]
      exact List.getElem_mem hlt
    have hsf : s.all hexValid = false := by
      by_contra hc
      rw [Bool.not_eq_false, List.all_eq_true] at hc
      exact absurd (hc 88 hmem) (by decide)
    have hstr : (hexParseString s v0).1 = false := by
      unfold hexParseString
      by_cases hls : s.length > 16
      · rw [if_pos hls]
      · rw [if_neg hls]
        simp only [hexParseHexa, List.all_append, hsf, Bool.and_false,
          Bool.false_eq_true, if_false]
    unfold hexParse
    by_cases hpre : s.length > 2 && s.getD 0 0 = 48 && s.getD 1 0 = 120
    · exfalso
      simp only [Bool.and_eq_true, decide_eq_true_eq] at hpre
      omega
    · rw [Bool.not_eq_true] at hpre
      rw [if_neg (by rw [hpre]; exact Bool.false_ne_true)]
      exact hstr
  · intro h v0 h17 hall
    obtain ⟨e1, e2⟩ := hexParse_strip h v0 (by omega) hall
    have hps : (hexParseString h v0).1 = false := by
      unfold hexParseString
      rw [if_pos (by omega)]
    exact ⟨by rw [e1]; exact hps, by rw [e2]; exact hps⟩

/-- Witness for C3: the mixed-case pair `"1A2b"` / `"1a2B"`, the
`0X`-prefixed input `"0X1F"`, and a 17-digit string. -/
theorem C3_hexadecimal_parse_witness :
    (hexParse (strBytes "1A2b") 0 = (true, hexVal (strBytes "1A2b")) ∧
      hexParse (48 :: 120 :: strBytes "1A2b") 0 = (true, hexVal (strBytes "1A2b")) ∧
      hexVal (strBytes "1a2B") = hexVal (strBytes "1A2b") ∧
      hexVal (strBytes "1A2b") < 2 ^ 64) ∧
    (hexParse (strBytes "0X1F") 0).1 = false ∧
    (hexParse (strBytes "11223344556677889") 0).1 = false := by
  refine ⟨?_, ?_, ?_⟩
  · exact C3_hexadecimal_parse.1 (strBytes "1A2b") (strBytes "1a2B") 0
      (by decide) (by decide) (by decide) (by decide) (by decide) (by decide) (by decide)
  · exact C3_hexadecimal_parse.2.1 (strBytes "0X1F") 0 (by decide) (by decide) (by decide)
  · exact (C3_hexadecimal_parse.2.2 (strBytes "11223344556677889") 0
      (by decide) (by decide)).1

/-- Claim C10: `month_to_ordinal(c1, c2, c3)` returns `k ∈ 1..12` exactly
when the three characters are, up to letter case, the three-letter English
abbreviation of month `k`, and returns 0 for every other triple of bytes:
the perfect-hash lookup admits no false positives. -/
theorem C10_month_to_ordinal (c1 c2 c3 : ℕ)
    (h1 : c1 < 256) (h2 : c2 < 256) (h3 : c3 < 256) :
    monthToOrdinal c1 c2 c3 = monthSpec c1 c2 c3 := by
  have hidx16 : (68 * monthToInteger c1 c2 c3 % 929) &&& 15 < 16 := by
    rw [and15_eq_mod]
    omega
  simp only [monthToOrdinal, monthSpec]
  by_cases hcode : (maybeLetter c1 && maybeLetter c2 && maybeLetter c3
      && decide (monthToInteger c1 c2 c3
        = monthValues.getD
            (monthOffsets.getD ((68 * monthToInteger c1 c2 c3 % 929) &&& 15) 0) 0)) = true
  · rw [if_pos hcode]
    simp only [Bool.and_eq_true, decide_eq_true_eq] at hcode
    obtain ⟨⟨⟨hl1, hl2⟩, hl3⟩, hveq⟩ := hcode
    have hoff11 : monthOffsets.getD ((68 * monthToInteger c1 c2 c3 % 929) &&& 15) 0 < 12 := by
      rcases monthOffsets_range _ hidx16 with hle | h15
      · omega
      · exfalso
        have hv0 : monthToInteger c1 c2 c3 = 0 := by
          rw [hveq, h15]
          decide
        rw [hv0] at h15
        exact absurd h15 (by decide)
    have hmatch := (monthMatches_abbrev_iff c1 c2 c3 h1 h2 h3 _ hoff11).mpr ⟨hl1, hl2, hl3, hveq⟩
    have hprev : ∀ j < monthOffsets.getD ((68 * monthToInteger c1 c2 c3 % 929) &&& 15) 0,
        monthMatches c1 c2 c3 (monthAbbrevs.getD j (0, 0, 0)) = false := by
      intro j hj
      by_contra hc
      rw [Bool.not_eq_false] at hc
      obtain ⟨-, -, -, hvj⟩ := (monthMatches_abbrev_iff c1 c2 c3 h1 h2 h3 j (by omega)).mp hc
      have := monthValues_distinct j (by omega) _ hoff11 (by rw [← hvj, ← hveq])
      omega
    have hfound := monthFind_found c1 c2 c3 monthAbbrevs 0 _
      (by simpa [monthAbbrevs] using hoff11) hmatch hprev
    rw [hfound]
    omega
  · rw [if_neg hcode]
    have hnone : ∀ t ∈ monthAbbrevs, monthMatches c1 c2 c3 t = false := by
      intro t ht
      by_contra hc
      rw [Bool.not_eq_false] at hc
      obtain ⟨i, hilen, hti⟩ := List.mem_iff_getElem.mp ht
      have hi12 : i < 12 := by simpa [monthAbbrevs] using hilen
      have htd : monthAbbrevs.getD i (0, 0, 0) = t := by
        rw [List.getD_eq_getElem _ _ hilen, hti]
      rw [← htd] at hc
      obtain ⟨hl1, hl2, hl3, hvi⟩ := (monthMatches_abbrev_iff c1 c2 c3 h1 h2 h3 i hi12).mp hc
      apply hcode
      have hhash := monthHash_consistent i hi12
      rw [hvi, hhash]
      simp [hl1, hl2, hl3, hvi]
    rw [monthFind_eq_zero c1 c2 c3 monthAbbrevs 0 hnone]

/-- Witness for C10 at the triple `('s', 'E', 'p')`. -/
theorem C10_month_to_ordinal_witness :
    monthToOrdinal 115 69 112 = monthSpec 115 69 112 :=
  C10_month_to_ordinal 115 69 112 (by decide) (by decide) (by decide)

/-- Claim C8: the braced (38-byte), dashed (36-byte) and compact (32-byte)
spellings of one UUID, in any letter case, all decode to the same 16 bytes
(the nibble-pair packing of the 32 hex characters), and replacing any
single hexadecimal position by one of the adjacent-but-invalid characters
`/ : @ [ \x60 \x7b` makes `uuid::parse` fail in every spelling. -/
theorem C8_uuid_encodings (h1 h2 : List ℕ)
    (hl1 : h1.length = 32) (hl2 : h2.length = 32)
    (hb1 : ∀ c ∈ h1, c < 256) (hb2 : ∀ c ∈ h2, c < 256)
    (hd1 : h1.all hexDigitChar = true) (hd2 : h2.all hexDigitChar = true)
    (hm : h1.map (fun c => c ||| 32) = h2.map (fun c => c ||| 32)) (id0 : List ℕ) :
    (uuidParse h1 id0 = (true, packPairs h1) ∧
      uuidParse (insertDashes h1) id0 = (true, packPairs h1) ∧
      uuidParse (123 :: insertDashes h1 ++ [125]) id0 = (true, packPairs h1) ∧
      packPairs h2 = packPairs h1) ∧
    (∀ i < 32, ∀ b ∈ [47, 58, 64, 91, 96, 123],
      (uuidParse (h1.set i b) id0).1 = false ∧
      (uuidParse ((insertDashes h1).set (dashedPos i) b) id0).1 = false ∧
      (uuidParse ((123 :: insertDashes h1 ++ [125]).set (dashedPos i + 1) b) id0).1 = false) := by
  have hdlen := insertDashes_length h1 hl1
  have hblen : (123 :: insertDashes h1 ++ [125]).length = 38 := by
    simp [hdlen]
  constructor
  · refine ⟨?_, ?_, ?_, ?_⟩
    · unfold uuidParse
      rw [if_neg (by omega), if_neg (by omega), if_pos hl1,
        List.take_of_length_le (by omega), uuidParseCore_valid h1 id0 hb1 hd1]
    · unfold uuidParse
      rw [if_neg (by omega), if_pos hdlen, rfcGather_insertDashes h1 hl1,
        uuidParseCore_valid h1 id0 hb1 hd1]
    · unfold uuidParse
      rw [if_pos hblen]
      rw [show List.drop 1 (123 :: insertDashes h1 ++ [125])
          = insertDashes h1 ++ [125] from rfl, rfcGather_append _ _ hdlen,
        rfcGather_insertDashes h1 hl1, uuidParseCore_valid h1 id0 hb1 hd1]
    · rw [packPairs_eq_packNibs h2, packPairs_eq_packNibs h1,
        map_hexNib_eq h2 h1 hb2 hb1 hd2 hd1 hm.symm]
  · intro i hi b hbmem
    have hv : hexValid b = false := by
      fin_cases hbmem <;> decide
    have hp36 : dashedPos i < 36 := dashedPos_lt i hi
    refine ⟨?_, ?_, ?_⟩
    · have hslen : (h1.set i b).length = 32 := by simp [hl1]
      have hmem : b ∈ h1.set i b := by
        have h' : (h1.set i b).getD i 0 ∈ h1.set i b := by
          rw [List.getD_eq_getElem _ _ (by omega)]
          exact List.getElem_mem _
        rw [getD_set_self h1 i b (by omega)] at h'
        exact h'
      unfold uuidParse
      rw [if_neg (by omega), if_neg (by omega), if_pos hslen,
        List.take_of_length_le (by omega)]
      exact uuidParseCore_invalid _ id0 b hmem hv
    · have hslen : ((insertDashes h1).set (dashedPos i) b).length = 36 := by
        simp [hdlen]
      have hgl : (rfcGather ((insertDashes h1).set (dashedPos i) b)).length = 32 :=
        rfcGather_length _ (by omega)
      have hgb : (rfcGather ((insertDashes h1).set (dashedPos i) b)).getD i 0 = b := by
        rw [rfcGather_getD _ (by omega) i hi,
          getD_set_self _ _ _ (by omega)]
      have hmem : b ∈ rfcGather ((insertDashes h1).set (dashedPos i) b) := by
        have h' : (rfcGather ((insertDashes h1).set (dashedPos i) b)).getD i 0
            ∈ rfcGather ((insertDashes h1).set (dashedPos i) b) := by
          rw [List.getD_eq_getElem _ _ (by omega)]
          exact List.getElem_mem _
        rw [hgb] at h'
        exact h'
      unfold uuidParse
      rw [if_neg (by omega), if_pos hslen]
      exact uuidParseCore_invalid _ id0 b hmem hv
    · have hset : (123 :: insertDashes h1 ++ [125]).set (dashedPos i + 1) b
          = 123 :: ((insertDashes h1 ++ [125]).set (dashedPos i) b) := rfl
      rw [hset, List.set_append, if_pos (by omega)]
      have hslen : ((insertDashes h1).set (dashedPos i) b).length = 36 := by
        simp [hdlen]
      have hlen38 : (123 :: ((insertDashes h1).set (dashedPos i) b ++ [125])).length = 38 := by
        simp [hslen]
      unfold uuidParse
      rw [if_pos hlen38, List.drop_succ_cons, List.drop_zero,
        rfcGather_append _ _ hslen]
      have hgb : (rfcGather ((insertDashes h1).set (dashedPos i) b)).getD i 0 = b := by
        rw [rfcGather_getD _ (by omega) i hi,
          getD_set_self _ _ _ (by omega)]
      have hmem : b ∈ rfcGather ((insertDashes h1).set (dashedPos i) b) := by
        have hgl : (rfcGather ((insertDashes h1).set (dashedPos i) b)).length = 32 :=
          rfcGather_length _ (by omega)
        have h' : (rfcGather ((insertDashes h1).set (dashedPos i) b)).getD i 0
            ∈ rfcGather ((insertDashes h1).set (dashedPos i) b) := by
          rw [List.getD_eq_getElem _ _ (by omega)]
          exact List.getElem_mem _
        rw [hgb] at h'
        exact h'
      exact uuidParseCore_invalid _ id0 b hmem hv

/-- Witness for C8 at the sample UUID `f81d4fae7dec11d0a76500a0c91e6bf6`
and its uppercase spelling. -/
theorem C8_uuid_encodings_witness :
    (uuidParse (strBytes "f81d4fae7dec11d0a76500a0c91e6bf6") []
        = (true, packPairs (strBytes "f81d4fae7dec11d0a76500a0c91e6bf6")) ∧
      uuidParse (insertDashes (strBytes "f81d4fae7dec11d0a76500a0c91e6bf6")) []
        = (true, packPairs (strBytes "f81d4fae7dec11d0a76500a0c91e6bf6")) ∧
      uuidParse (123 :: insertDashes (strBytes "f81d4fae7dec11d0a76500a0c91e6bf6") ++ [125]) []
        = (true, packPairs (strBytes "f81d4fae7dec11d0a76500a0c91e6bf6")) ∧
      packPairs (strBytes "F81D4FAE7DEC11D0A76500A0C91E6BF6")
        = packPairs (strBytes "f81d4fae7dec11d0a76500a0c91e6bf6")) ∧
    (∀ i < 32, ∀ b ∈ [47, 58, 64, 91, 96, 123],
      (uuidParse ((strBytes "f81d4fae7dec11d0a76500a0c91e6bf6").set i b) []).1 = false ∧
      (uuidParse ((insertDashes (strBytes "f81d4fae7dec11d0a76500a0c91e6bf6")).set (dashedPos i) b) []).1 = false ∧
      (uuidParse ((123 :: insertDashes (strBytes "f81d4fae7dec11d0a76500a0c91e6bf6") ++ [125]).set (dashedPos i + 1) b) []).1 = false) :=
  C8_uuid_encodings (strBytes "f81d4fae7dec11d0a76500a0c91e6bf6")
    (strBytes "F81D4FAE7DEC11D0A76500A0C91E6BF6")
    (by decide) (by decide) (by decide) (by decide) (by decide) (by decide) (by decide) []

/-- Claim C7: for every byte string of length n, `base64url::encode`
produces exactly `4*(n/3) + f(n mod 3)` characters with `f(0)=0, f(1)=2,
f(2)=3`, and `base64url::decode` (including its AVX2 32-character block
kernel) applied to that encoding returns exactly the original bytes. -/
theorem C7_base64_roundtrip (bs : List ℕ) (hb : ∀ c ∈ bs, c < 256) :
    (encode bs).length = 4 * (bs.length / 3)
      + (if bs.length % 3 = 0 then 0 else if bs.length % 3 = 1 then 2 else 3) ∧
    decode (encode bs) = some bs := by
  have hlen := encode_length bs
  refine ⟨hlen, ?_⟩
  unfold decode
  rw [if_neg (by rw [hlen]; split_ifs <;> omega)]
  rw [decodeGo_eq_aux (encode bs).length (encode bs) le_rfl (encode_valid bs)]
  exact decodeQuads_encode bs hb

/-- Witness for C7 at the 4-byte input `[77, 255, 0, 128]`. -/
theorem C7_base64_roundtrip_witness :
    (encode [77, 255, 0, 128]).length = 4 * ([77, 255, 0, 128].length / 3)
      + (if [77, 255, 0, 128].length % 3 = 0 then 0
         else if [77, 255, 0, 128].length % 3 = 1 then 2 else 3) ∧
    decode (encode [77, 255, 0, 128]) = some [77, 255, 0, 128] :=
  C7_base64_roundtrip [77, 255, 0, 128] (by decide)

/-- Claim C4: on a valid civil date-time string whose fractional-second
field has `d` digits (`1 ≤ d ≤ 9`) of value `f`, `datetime::parse` sets
`nanosecond` to `10^(9-d) * f` (the fraction right-zero-padded to nine
digits): the AVX2 build accepts and stores that value, and whenever the
scalar build accepts it stores the same value. -/
theorem C4_fractional_nanoseconds (p frac : List ℕ) (st : datetime)
    (hp : p.length = 19) (hd1 : 1 ≤ frac.length) (hd9 : frac.length ≤ 9)
    (hfrac : frac.all isDigit = true)
    (hb : inBounds dtBounds32 ((p ++ 46 :: frac)
        ++ List.replicate (32 - (p ++ 46 :: frac).length) 48) = true) :
    (dtParseAvx (p ++ 46 :: frac) st).1 = true ∧
    (dtParseAvx (p ++ 46 :: frac) st).2.nanosecond
      = 10 ^ (9 - frac.length) * decVal frac ∧
    ((dtParseSca (p ++ 46 :: frac) st).1 = true →
      (dtParseSca (p ++ 46 :: frac) st).2.nanosecond
        = 10 ^ (9 - frac.length) * decVal frac) := by
  set s := p ++ 46 :: frac with hs
  have hslen : s.length = 20 + frac.length := by
    rw [hs]
    simp [hp]
    omega
  have hbuflen : (s ++ List.replicate (32 - s.length) 48).length = 32 := by
    simp only [List.length_append, List.length_replicate]
    omega
  have hbyte : ∀ i, 15 ≤ i → i ≤ 28 →
      46 ≤ sbyte ((s ++ List.replicate (32 - s.length) 48).getD i 0) ∧
      sbyte ((s ++ List.replicate (32 - s.length) 48).getD i 0) ≤ 58 := by
    intro i h15 h28
    have h1 := inBounds_getD dtBounds32 (s ++ List.replicate (32 - s.length) 48) hb i
      (by rw [show dtBounds32.length = 32 from rfl]; omega)
      (by rw [hbuflen]; omega)
    have h2 := dtBounds32_mid i h15 h28
    exact ⟨le_trans h2.1 h1.1, le_trans h1.2 h2.2⟩
  have hsbyte : ∀ i, 15 ≤ i → i ≤ 28 → i < s.length →
      46 ≤ sbyte (s.getD i 0) ∧ sbyte (s.getD i 0) ≤ 58 := by
    intro i h15 h28 hil
    have hx := hbyte i h15 h28
    rwa [List.getD_append _ _ _ i hil] at hx
  have hZ : ¬ s.getLast? = some 90 := by
    intro hcon
    rw [List.getLast?_eq_getElem?,
      List.getElem?_eq_getElem (by omega : s.length - 1 < s.length)] at hcon
    have he : s.getD (s.length - 1) 0 = 90 := by
      rw [List.getD_eq_getElem s 0 (by omega)]
      exact Option.some.inj hcon
    have hbb := hsbyte (s.length - 1) (by omega) (by omega) (by omega)
    rw [he] at hbb
    exact absurd hbb (by decide)
  have hSign : ¬ (s.getD (s.length - 6) 0 = 43 ∨ s.getD (s.length - 6) 0 = 45) := by
    have hbb := hsbyte (s.length - 6) (by omega) (by omega) (by omega)
    rintro (he | he) <;> rw [he] at hbb <;> exact absurd hbb (by decide)
  have hUTC : ¬ s.drop (s.length - 4) = [32, 85, 84, 67] := by
    intro hcon
    have he : s.getD (s.length - 4) 0 = 32 := by
      have h0 : (s.drop (s.length - 4)).getD 0 0 = 32 := by rw [hcon]; rfl
      rw [getD_drop_add] at h0
      simpa using h0
    have hbb := hsbyte (s.length - 4) (by omega) (by omega) (by omega)
    rw [he] at hbb
    exact absurd hbb (by decide)
  have hwrap : ∀ naive : List ℕ → datetime → Bool × datetime,
      dtWrapper naive s st =
        (if !(naive s st).1 then (false, (naive s st).2)
         else (true, { (naive s st).2 with offset := 0 })) := by
    intro naive
    unfold dtWrapper
    rw [if_neg (by simp only [Bool.or_eq_true, decide_eq_true_eq]; omega)]
    rw [if_neg hZ]
    rw [if_neg (by simp only [Bool.or_eq_true, decide_eq_true_eq]; exact hSign)]
    rw [if_neg hUTC]
  have havx : dtNaiveAvx s st = dtParseSimdFrac s st := by
    unfold dtNaiveAvx
    rw [if_neg (by simp only [Bool.or_eq_true, decide_eq_true_eq]; omega)]
    rw [if_pos (by omega : s.length > 19)]
  have hfr : dtParseSimdFrac s st
      = (true, { st with
          year := (100 * (10 * dval ((s ++ List.replicate (32 - s.length) 48).getD 0 0)
                    + dval ((s ++ List.replicate (32 - s.length) 48).getD 1 0))
                  + (10 * dval ((s ++ List.replicate (32 - s.length) 48).getD 2 0)
                    + dval ((s ++ List.replicate (32 - s.length) 48).getD 3 0)) : ℕ),
          month := 10 * dval ((s ++ List.replicate (32 - s.length) 48).getD 5 0)
                    + dval ((s ++ List.replicate (32 - s.length) 48).getD 6 0),
          day := 10 * dval ((s ++ List.replicate (32 - s.length) 48).getD 8 0)
                    + dval ((s ++ List.replicate (32 - s.length) 48).getD 9 0),
          hour := 10 * dval ((s ++ List.replicate (32 - s.length) 48).getD 11 0)
                    + dval ((s ++ List.replicate (32 - s.length) 48).getD 12 0),
          minute := 10 * dval ((s ++ List.replicate (32 - s.length) 48).getD 14 0)
                    + dval ((s ++ List.replicate (32 - s.length) 48).getD 15 0),
          second := 10 * dval ((s ++ List.replicate (32 - s.length) 48).getD 17 0)
                    + dval ((s ++ List.replicate (32 - s.length) 48).getD 18 0),
          nanosecond := 1000000 * (100 * dval ((s ++ List.replicate (32 - s.length) 48).getD 20 0)
                + 10 * dval ((s ++ List.replicate (32 - s.length) 48).getD 21 0)
                + dval ((s ++ List.replicate (32 - s.length) 48).getD 22 0))
              + 1000 * (100 * dval ((s ++ List.replicate (32 - s.length) 48).getD 23 0)
                + 10 * dval ((s ++ List.replicate (32 - s.length) 48).getD 24 0)
                + dval ((s ++ List.replicate (32 - s.length) 48).getD 25 0))
              + (100 * dval ((s ++ List.replicate (32 - s.length) 48).getD 26 0)
                + 10 * dval ((s ++ List.replicate (32 - s.length) 48).getD 27 0)
                + dval ((s ++ List.replicate (32 - s.length) 48).getD 28 0)) }) := by
    simp only [dtParseSimdFrac]
    rw [if_pos hb]
  have hnano : 1000000 * (100 * dval ((s ++ List.replicate (32 - s.length) 48).getD 20 0)
        + 10 * dval ((s ++ List.replicate (32 - s.length) 48).getD 21 0)
        + dval ((s ++ List.replicate (32 - s.length) 48).getD 22 0))
      + 1000 * (100 * dval ((s ++ List.replicate (32 - s.length) 48).getD 23 0)
        + 10 * dval ((s ++ List.replicate (32 - s.length) 48).getD 24 0)
        + dval ((s ++ List.replicate (32 - s.length) 48).getD 25 0))
      + (100 * dval ((s ++ List.replicate (32 - s.length) 48).getD 26 0)
        + 10 * dval ((s ++ List.replicate (32 - s.length) 48).getD 27 0)
        + dval ((s ++ List.replicate (32 - s.length) 48).getD 28 0))
      = 10 ^ (9 - frac.length) * decVal frac := by
    have hbufeq : s ++ List.replicate (32 - s.length) 48
        = ((p ++ [46]) ++ (frac ++ List.replicate (9 - frac.length) 48))
            ++ List.replicate 3 48 := by
      rw [show 32 - s.length = (9 - frac.length) + 3 from by omega, List.replicate_add, hs]
      simp [List.append_assoc]
    have hllen : (frac ++ List.replicate (9 - frac.length) 48).length = 9 := by
      simp only [List.length_append, List.length_replicate]
      omega
    have hAlen : ((p ++ [46]) ++ (frac ++ List.replicate (9 - frac.length) 48)).length = 29 := by
      simp only [List.length_append, List.length_cons, List.length_nil, hp, hllen]
    have hplen : (p ++ [46]).length = 20 := by
      simp only [List.length_append, List.length_cons, List.length_nil, hp]
    have hpos : ∀ i j : ℕ, i = 20 + j → j < 9 →
        (s ++ List.replicate (32 - s.length) 48).getD i 0
          = (frac ++ List.replicate (9 - frac.length) 48).getD j 0 := by
      intro i j hij hj
      subst hij
      rw [hbufeq, List.getD_append _ _ _ (20 + j) (by rw [hAlen]; omega),
        List.getD_append_right _ _ _ (20 + j) (by rw [hplen]; omega)]
      congr 1
      rw [hplen]
      omega
    have e20 := hpos 20 0 (by norm_num) (by norm_num)
    have e21 := hpos 21 1 (by norm_num) (by norm_num)
    have e22 := hpos 22 2 (by norm_num) (by norm_num)
    have e23 := hpos 23 3 (by norm_num) (by norm_num)
    have e24 := hpos 24 4 (by norm_num) (by norm_num)
    have e25 := hpos 25 5 (by norm_num) (by norm_num)
    have e26 := hpos 26 6 (by norm_num) (by norm_num)
    have e27 := hpos 27 7 (by norm_num) (by norm_num)
    have e28 := hpos 28 8 (by norm_num) (by norm_num)
    rw [e20, e21, e22, e23, e24, e25, e26, e27, e28]
    have hldig : (frac ++ List.replicate (9 - frac.length) 48).all isDigit = true := by
      rw [List.all_append, hfrac]
      simp only [Bool.true_and, List.all_eq_true]
      intro c hc
      rw [List.eq_of_mem_replicate hc]
      decide
    rw [nine_digits _ hllen hldig, decVal_append, decVal_replicate48, List.length_replicate]
    ring
  refine ⟨?_, ?_, ?_⟩
  · show (dtWrapper dtNaiveAvx s st).1 = true
    rw [hwrap dtNaiveAvx, havx, hfr]
    simp
  · show (dtWrapper dtNaiveAvx s st).2.nanosecond = _
    rw [hwrap dtNaiveAvx, havx, hfr]
    simpa using hnano
  · intro h
    have hsca : dtNaiveSca s st = dtParseCharsFrac s st := by
      unfold dtNaiveSca
      rw [if_neg (by simp only [Bool.or_eq_true, decide_eq_true_eq]; omega)]
      rw [if_pos (by omega : s.length > 19)]
    replace h : (dtWrapper dtNaiveSca s st).1 = true := h
    rw [hwrap dtNaiveSca, hsca] at h
    show (dtWrapper dtNaiveSca s st).2.nanosecond = _
    rw [hwrap dtNaiveSca, hsca]
    have h19 : s.getD 19 0 = 46 := by
      rw [hs, List.getD_append_right _ _ _ 19 (by omega), hp]
      simp
    have hdrop : s.drop 20 = frac := by
      rw [hs, show p ++ 46 :: frac = (p ++ [46]) ++ frac from by simp,
        show (20 : ℕ) = (p ++ [46]).length from by simp [hp]]
      exact List.drop_left _ _
    by_cases hc : (dtParseChars19 (s.take 19) st).1 = true
    · simp only [dtParseCharsFrac, hc, Bool.not_true, Bool.false_eq_true, if_false, h19] at h ⊢
      rw [hdrop] at h ⊢
      have hfc : fromCharsU (2 ^ 64) frac 0 = (true, decVal frac) := by
        refine fromCharsU_digits (2 ^ 64) frac 0 ?_ hfrac ?_
        · intro hn
          rw [hn] at hd1
          simp at hd1
        · calc decVal frac < 10 ^ frac.length := decVal_lt frac hfrac
            _ ≤ 10 ^ 9 := Nat.pow_le_pow_right (by norm_num) hd9
            _ < 2 ^ 64 := by norm_num
      simp only [dtParseFractionalPart, hfc] at h ⊢
      simp
    · have hcf : (dtParseChars19 (s.take 19) st).1 = false := by
        cases hx : (dtParseChars19 (s.take 19) st).1
        · rfl
        · exact absurd hx hc
      simp only [dtParseCharsFrac, hcf, Bool.not_false, if_true] at h
      simp at h


/-- Witness for C4 at `"1984-01-01 01:02:03.4"`: nanosecond 400000000. -/
theorem C4_fractional_nanoseconds_witness :
    (dtParseAvx (strBytes "1984-01-01 01:02:03" ++ 46 :: [52]) {}).1 = true ∧
    (dtParseAvx (strBytes "1984-01-01 01:02:03" ++ 46 :: [52]) {}).2.nanosecond
      = 10 ^ (9 - [52].length) * decVal [52] ∧
    ((dtParseSca (strBytes "1984-01-01 01:02:03" ++ 46 :: [52]) {}).1 = true →
      (dtParseSca (strBytes "1984-01-01 01:02:03" ++ 46 :: [52]) {}).2.nanosecond
        = 10 ^ (9 - [52].length) * decVal [52]) :=
  C4_fractional_nanoseconds (strBytes "1984-01-01 01:02:03") [52] {}
    (by decide) (by decide) (by decide) (by decide) (by decide)


/-- Claim C1 (amended): the AVX2 and scalar paths of the date and date-time
decoders need not agree on the accept/reject decision (see the
counterexample), but on every input both paths accept they produce
identical field values: the two parses are equal as states. -/
theorem C1_scalar_vector_agreement :
    (∀ (s : List ℕ) (st : date), (∀ c ∈ s, c < 256) →
      (dateParseAvx s st).1 = true → (dateParseSca s st).1 = true →
      dateParseAvx s st = dateParseSca s st) ∧
    (∀ (s : List ℕ) (st : datetime), (∀ c ∈ s, c < 256) →
      (dtParseAvx s st).1 = true → (dtParseSca s st).1 = true →
      dtParseAvx s st = dtParseSca s st) := by
  constructor
  · exact fun s st hbs hA hS => dateParse_agree s st hbs hA hS
  · intro s st hbs hA hS
    unfold dtParseAvx at hA ⊢
    unfold dtParseSca at hS ⊢
    exact dtWrapper_agree dtNaiveAvx dtNaiveSca s st hbs
      (fun u hub hu1 hu2 => dtNaive_agree u st hub hu1 hu2) hA hS

/-- Witness for C1 at `"1984-10-24"` (date) and
`"1984-01-01 01:02:03.25"` (date-time), accepted by both builds. -/
theorem C1_scalar_vector_agreement_witness :
    dateParseAvx (strBytes "1984-10-24") {} = dateParseSca (strBytes "1984-10-24") {} ∧
    dtParseAvx (strBytes "1984-01-01 01:02:03.25") {}
      = dtParseSca (strBytes "1984-01-01 01:02:03.25") {} :=
  ⟨C1_scalar_vector_agreement.1 (strBytes "1984-10-24") {} (by decide) (by decide) (by decide),
   C1_scalar_vector_agreement.2 (strBytes "1984-01-01 01:02:03.25") {}
     (by decide) (by decide) (by decide)⟩


end Simdparse
